import Mathlib

/-! # The watch-display registry of the Wine debugger (`programs/winedbg/display.c`)

A shallow embedding of `display.c` and the properties of its slot store.

Conventions of the embedding.

* `unsigned int` values (`ndisplays`, `maxdisplays`) are natural numbers, and every
  arithmetic operation the source performs on them is reduced modulo `2 ^ 32`.
  A C `int` that meets an `unsigned int` in a comparison is first converted with
  `to_unsigned`, as the usual arithmetic conversions of C prescribe.
* The block `displaypoints` is a list of cells.  A cell is `none` while it has never been
  written since `dbg_heap_realloc` handed it out (its content is indeterminate) and
  `some d` afterwards.
* An access outside the block, or a read of an indeterminate cell, has no defined
  behaviour in C: the embedding stops there with a `Fault`.
* The collaborators that `display.c` calls but does not define (`expr_clone`,
  `stack_get_frame`, `expr_eval`, `types_extract_as_integer`) are fields of `Env`;
  the calls that only produce an effect (`dbg_printf`, `expr_print`, `expr_free`,
  `memory_examine`, `print_value`) are recorded, in order, as `Event`s.
* The loop counters `i` (an `int`) stay below the length of the block; a block of
  `2 ^ 31` cells is not representable, so their overflow is not modelled.
-/

namespace Winedbg

/-! ## Constants and machine integers -/

/-- The macro `DISPTAB_DELTA`. -/
def DISPTAB_DELTA : Nat := 8

/-- The macro `TRUE`. -/
def TRUE : Int := 1

/-- The macro `FALSE`. -/
def FALSE : Int := 0

/-- Conversion of an `int` to `unsigned int`. -/
def to_unsigned (x : Int) : Nat := (x % 4294967296).toNat

/-- The value of `~(DISPTAB_DELTA - 1)` converted to `unsigned int`. -/
def DELTA_MASK : Nat := to_unsigned (-(DISPTAB_DELTA : Int))

/-! ## Data model -/

/-- A handle on a parsed expression (`struct expr*`, never `NULL`). -/
structure expr where
  id : Nat
deriving DecidableEq, Repr

/-- The type `SYMBOL_INFO`, as far as `display.c` looks into it: the bytes of the fixed
fields, which precede `Name`, and the bytes of the name buffer. -/
structure SYMBOL_INFO where
  fixed : List Nat
  Name : List Nat
deriving DecidableEq, Repr

/-- The type `struct display`.  `exp = none` is the `NULL` pointer: the record is a
tombstone.  `func = none` is the `NULL` pointer; otherwise `func` points at the record's
own `func_buffer`, whose content it carries. -/
structure display where
  exp : Option expr
  count : Int
  format : Char
  enabled : Int
  func : Option SYMBOL_INFO
deriving DecidableEq, Repr

/-- The value of type `struct dbg_lvalue`, as far as `display.c` looks into it. -/
structure dbg_lvalue where
  type_id : Nat
  addr : Int
deriving DecidableEq, Repr

/-- The constant `dbg_itype_none`. -/
def dbg_itype_none : Nat := 4294967295

/-- The three file-scope variables of `display.c`. -/
structure Store where
  displaypoints : List (Option display)
  maxdisplays : Nat
  ndisplays : Nat
deriving DecidableEq, Repr

/-- The store at program start: `displaypoints = NULL`, `maxdisplays = 0`, `ndisplays = 0`. -/
def Store.empty : Store := ⟨[], 0, 0⟩

/-- An argument of `dbg_printf`. -/
inductive printf_arg where
  | int (n : Int)
  | str (bytes : List Nat)
  | text (literal : String)
deriving DecidableEq, Repr

/-- The observable calls of `display.c`, in the order it makes them. -/
inductive Event where
  | dbg_printf (fmt : String) (args : List printf_arg)
  | expr_print (e : expr)
  | expr_free (e : expr)
  | memory_examine (addr : Int) (count : Int) (format : Char)
  | print_value (lvalue : dbg_lvalue) (format : Char) (level : Int)
deriving DecidableEq, Repr

/-- Where the C program leaves defined behaviour. -/
inductive Fault where
  | out_of_bounds (index : Int)
  | indeterminate (index : Int)
  | null_expression (index : Int)
deriving DecidableEq, Repr

/-- The collaborators of `display.c`.  `expr_clone e` is the clone and the value it leaves
in `local_binding`; `stack_get_frame` is the return value of `stack_get_frame(func, NULL)`
and the content of the buffer after the call. -/
structure Env where
  expr_clone : expr → expr × Bool
  stack_get_frame : Bool × SYMBOL_INFO
  expr_eval : expr → dbg_lvalue
  types_extract_as_integer : dbg_lvalue → Int

/-- What an entry point yields: its return value, the store it leaves, and its events. -/
abbrev Outcome := Except Fault (Int × Store × List Event)

/-! ## Memory -/

/-- Read of `displaypoints[i]`. -/
def load (dp : List (Option display)) (i : Int) : Except Fault display :=
  if i < 0 then .error (.out_of_bounds i)
  else
    match dp[i.toNat]? with
    | none => .error (.out_of_bounds i)
    | some none => .error (.indeterminate i)
    | some (some d) => .ok d

/-- The call `dbg_heap_realloc(displaypoints, n * sizeof(*displaypoints))`: the first cells
are kept, the cells gained are indeterminate. -/
def dbg_heap_realloc (dp : List (Option display)) (n : Nat) : List (Option display) :=
  dp.take n ++ List.replicate (n - dp.length) none

/-! ## `cmp_symbol` -/

/-- The value of `OFFSET_OF(Name, SYMBOL_INFO)`.  `SYMBOL_INFO` is declared in `dbghelp.h`,
which is not part of the unit; the value is the one of the Windows SDK layout. -/
def OFFSET_OF_Name : Nat := 84

/-- The function `memcmp` of the C library on the first `n` bytes of two buffers: zero
when they agree, otherwise the sign of the first difference. -/
def memcmp : List Nat → List Nat → Nat → Int
  | a :: as, b :: bs, n + 1 => if a < b then -1 else if b < a then 1 else memcmp as bs n
  | _, _, _ => 0

/-- Little-endian value of a sequence of bytes. -/
def le_value : List Nat → Nat
  | [] => 0
  | b :: bs => b + 256 * le_value bs

/-- The field `NameLen`: it and `MaxNameLen` are the two `ULONG`s that end the fixed
fields of `SYMBOL_INFO`. -/
def SYMBOL_INFO.NameLen (si : SYMBOL_INFO) : Nat :=
  le_value ((si.fixed.drop (OFFSET_OF_Name - 8)).take 4)

/-- The function `cmp_symbol`. -/
def cmp_symbol (si1 si2 : SYMBOL_INFO) : Bool :=
  memcmp si1.fixed si2.fixed OFFSET_OF_Name == 0 &&
    memcmp si1.Name si2.Name si1.NameLen == 0

/-! ## `display_add` -/

/-- The loop `for (i = 0; i < ndisplays; i++) if (displaypoints[i].exp == NULL) break;`
of `display_add`, entered at `i` with `ndisplays - i` given as first argument; the
result is the final `i`. -/
def display_add_scan (dp : List (Option display)) : Nat → Nat → Except Fault Nat
  | 0, i => .ok i
  | rem + 1, i =>
    match load dp i with
    | .error f => .error f
    | .ok d => if d.exp = none then .ok i else display_add_scan dp rem (i + 1)

/-- The function `display_add`. -/
def display_add (env : Env) (s : Store) (exp : expr) (count : Int) (format : Char) :
    Outcome :=
  match display_add_scan s.displaypoints s.ndisplays 0 with
  | .error f => .error f
  | .ok i =>
    let maxdisplays :=
      if i = s.maxdisplays then (s.maxdisplays + DISPTAB_DELTA) % 4294967296
      else s.maxdisplays
    let displaypoints :=
      if i = s.maxdisplays then dbg_heap_realloc s.displaypoints maxdisplays
      else s.displaypoints
    let ndisplays := if i = s.ndisplays then (s.ndisplays + 1) % 4294967296 else s.ndisplays
    if i < displaypoints.length then
      let clone := env.expr_clone exp
      if clone.2 then
        if env.stack_get_frame.1 then
          .ok (TRUE,
            ⟨displaypoints.set i
              (some ⟨some clone.1, count, format, TRUE, some env.stack_get_frame.2⟩),
              maxdisplays, ndisplays⟩, [])
        else
          .ok (FALSE,
            ⟨displaypoints.set i
              (some ⟨none, count, format, TRUE, some env.stack_get_frame.2⟩),
              maxdisplays, ndisplays⟩, [Event.expr_free clone.1])
      else
        .ok (TRUE,
          ⟨displaypoints.set i (some ⟨some clone.1, count, format, TRUE, none⟩),
            maxdisplays, ndisplays⟩, [])
    else .error (.out_of_bounds i)

/-! ## `display_delete` -/

/-- The events and return value of the branch that rejects the display number. -/
def invalid_display_number (s : Store) : Outcome :=
  .ok (TRUE, s, [Event.dbg_printf "Invalid display number\n" []])

/-- The loop `for (i = 0; i < ndisplays; i++)` of the branch `displaynum == -1`, entered
at `i` with `ndisplays - i` given as first argument. -/
def display_delete_all (dp : List (Option display)) :
    Nat → Nat → Except Fault (List (Option display) × List Event)
  | 0, _ => .ok (dp, [])
  | rem + 1, i =>
    match load dp i with
    | .error f => .error f
    | .ok d =>
      match d.exp with
      | none => display_delete_all dp rem (i + 1)
      | some e =>
        match display_delete_all (dp.set i (some { d with exp := none })) rem (i + 1) with
        | .error f => .error f
        | .ok (dp1, out) => .ok (dp1, Event.expr_free e :: out)

/-- The loop
`while (displaynum == ndisplays - 1 && displaypoints[displaynum].exp == NULL)`
of `display_delete`.  The first argument is `displaynum + 1`, the second is `ndisplays`;
the result is the final `ndisplays`.  The comparison and `--ndisplays` are carried out on
`unsigned int`s.  With `displaynum = -1` the second operand reads `displaypoints[-1]`,
which lies before the block. -/
def display_delete_trim (dp : List (Option display)) : Nat → Nat → Except Fault Nat
  | 0, ndisplays =>
    if to_unsigned (-1) = to_unsigned ((ndisplays : Int) - 1) then
      .error (.out_of_bounds (-1))
    else .ok ndisplays
  | k + 1, ndisplays =>
    if to_unsigned (k : Int) = to_unsigned ((ndisplays : Int) - 1) then
      match load dp (k : Int) with
      | .error f => .error f
      | .ok d =>
        if d.exp = none then
          display_delete_trim dp k (to_unsigned ((ndisplays : Int) - 1))
        else .ok ndisplays
    else .ok ndisplays

/-- The statement `if (maxdisplays - ndisplays >= 2 * DISPTAB_DELTA) ...` that ends the
second branch of `display_delete`. -/
def display_delete_shrink (dp : List (Option display)) (maxdisplays ndisplays : Nat) :
    Store :=
  if to_unsigned ((maxdisplays : Int) - (ndisplays : Int)) ≥ 2 * DISPTAB_DELTA then
    let maxdisplays1 := ((ndisplays + DISPTAB_DELTA - 1) % 4294967296) &&& DELTA_MASK
    ⟨dbg_heap_realloc dp maxdisplays1, maxdisplays1, ndisplays⟩
  else ⟨dp, maxdisplays, ndisplays⟩

/-- The function `display_delete`. -/
def display_delete (s : Store) (displaynum : Int) : Outcome :=
  if to_unsigned displaynum > s.ndisplays ∨ displaynum = 0 ∨ displaynum < -1 then
    invalid_display_number s
  else
    match load s.displaypoints (displaynum - 1) with
    | .error f => .error f
    | .ok d0 =>
      if d0.exp = none then invalid_display_number s
      else if displaynum = -1 then
        match display_delete_all s.displaypoints s.ndisplays 0 with
        | .error f => .error f
        | .ok (dp, out) =>
          .ok (TRUE, ⟨dbg_heap_realloc dp DISPTAB_DELTA, DISPTAB_DELTA, 0⟩, out)
      else
        match load s.displaypoints (displaynum - 1) with
        | .error f => .error f
        | .ok d =>
          match d.exp with
          | none => .ok (TRUE, s, [])
          | some e =>
            let dp := s.displaypoints.set (displaynum - 1).toNat (some { d with exp := none })
            match display_delete_trim dp ((displaynum - 1).toNat + 1) s.ndisplays with
            | .error f => .error f
            | .ok ndisplays =>
              .ok (TRUE, display_delete_shrink dp s.maxdisplays ndisplays,
                [Event.expr_free e])

/-! ## `display_info` -/

/-- The test `displaypoints[i].func && !cmp_symbol(displaypoints[i].func, func)`. -/
def out_of_scope (d : display) (func : SYMBOL_INFO) : Bool :=
  match d.func with
  | none => false
  | some f => !cmp_symbol f func

/-- The second half of `print_one_display`, from `dbg_printf("%d: ", i + 1)` on. -/
def print_one_display_value (env : Env) (i : Int) (d : display) (e : expr) : List Event :=
  [Event.dbg_printf "%d: " [printf_arg.int (i + 1)], Event.expr_print e,
    Event.dbg_printf " = " []] ++
    (if d.enabled = 0 then [Event.dbg_printf "(disabled)\n" []]
     else if d.format = 'i' then
       [Event.memory_examine (env.types_extract_as_integer (env.expr_eval e)) d.count
         d.format]
     else [Event.print_value (env.expr_eval e) d.format 0])

/-- The function `print_one_display`: the block it leaves and its events. -/
def print_one_display (env : Env) (dp : List (Option display)) (i : Int) :
    Except Fault (List (Option display) × List Event) :=
  match load dp i with
  | .error f => .error f
  | .ok d =>
    match d.exp with
    | none => .error (.null_expression i)
    | some e =>
      if d.enabled ≠ 0 ∧ (env.expr_eval e).type_id = dbg_itype_none then
        .ok (dp.set i.toNat (some { d with enabled := FALSE }),
          [Event.dbg_printf "Unable to evaluate expression " [], Event.expr_print e,
            Event.dbg_printf "\nDisabling display %d ...\n" [printf_arg.int (i + 1)]])
      else .ok (dp, print_one_display_value env i d e)

/-! ## `display_print` -/

/-- The loop `for (i = 0; i < ndisplays; i++)` of `display_print`, entered at `i` with
`ndisplays - i` given as first argument. -/
def display_print_loop (env : Env) (func : SYMBOL_INFO) :
    Nat → Nat → List (Option display) → Except Fault (List (Option display) × List Event)
  | 0, _, dp => .ok (dp, [])
  | rem + 1, i, dp =>
    match load dp i with
    | .error f => .error f
    | .ok d =>
      if d.exp = none ∨ d.enabled = 0 then display_print_loop env func rem (i + 1) dp
      else if out_of_scope d func then display_print_loop env func rem (i + 1) dp
      else
        match print_one_display env dp i with
        | .error f => .error f
        | .ok (dp1, out1) =>
          match display_print_loop env func rem (i + 1) dp1 with
          | .error f => .error f
          | .ok (dp2, out2) => .ok (dp2, out1 ++ out2)

/-- The function `display_print`. -/
def display_print (env : Env) (s : Store) : Outcome :=
  if env.stack_get_frame.1 then
    match display_print_loop env env.stack_get_frame.2 s.ndisplays 0 s.displaypoints with
    | .error f => .error f
    | .ok (dp, out) => .ok (TRUE, { s with displaypoints := dp }, out)
  else .ok (FALSE, s, [])

/-! ## `display_enable` -/

/-- Conversion of an `int` to `char` (a signed byte). -/
def to_char (x : Int) : Int := (x + 128) % 256 - 128

/-- The function `display_enable`. -/
def display_enable (env : Env) (s : Store) (displaynum : Int) (enable : Int) : Outcome :=
  if env.stack_get_frame.1 then
    if to_unsigned (displaynum - 1) ≥ s.ndisplays ∨ displaynum - 1 < 0 then
      invalid_display_number s
    else
      match load s.displaypoints (displaynum - 1) with
      | .error f => .error f
      | .ok d =>
        if d.exp = none then invalid_display_number s
        else
          let dp := s.displaypoints.set (displaynum - 1).toNat
            (some { d with enabled := to_char enable })
          if !out_of_scope d env.stack_get_frame.2 then
            match print_one_display env dp (displaynum - 1) with
            | .error f => .error f
            | .ok (dp1, out) => .ok (TRUE, { s with displaypoints := dp1 }, out)
          else .ok (TRUE, { s with displaypoints := dp }, [])
  else .ok (FALSE, s, [])

/-! ## Reachable stores -/

/-- The stores that the entry points of `display.c` produce from the empty store.
`display_info` is absent: it never writes. -/
inductive Reachable : Store → Prop where
  | empty : Reachable Store.empty
  | add (env : Env) (s : Store) (exp : expr) (count : Int) (format : Char)
      (r : Int) (s1 : Store) (out : List Event) :
      Reachable s → display_add env s exp count format = .ok (r, s1, out) → Reachable s1
  | delete (s : Store) (displaynum : Int) (r : Int) (s1 : Store) (out : List Event) :
      Reachable s → display_delete s displaynum = .ok (r, s1, out) → Reachable s1
  | enable (env : Env) (s : Store) (displaynum enable : Int)
      (r : Int) (s1 : Store) (out : List Event) :
      Reachable s → display_enable env s displaynum enable = .ok (r, s1, out) →
      Reachable s1
  | print (env : Env) (s : Store) (r : Int) (s1 : Store) (out : List Event) :
      Reachable s → display_print env s = .ok (r, s1, out) → Reachable s1

/-- A slot holds a tombstone: it was written and its `exp` is `NULL`. -/
def tombstone_at (dp : List (Option display)) (j : Nat) : Bool :=
  match dp[j]? with
  | some (some d) => d.exp.isNone
  | _ => false

/-- A slot holds a live record: it was written and its `exp` is not `NULL`. -/
def live_at (dp : List (Option display)) (j : Nat) : Bool :=
  match dp[j]? with
  | some (some d) => d.exp.isSome
  | _ => false

/-! ## Vocabulary of the statements -/

/-- The record that `display_add` leaves in the slot it has chosen. -/
def display_add_record (env : Env) (exp : expr) (count : Int) (format : Char) : display :=
  if (env.expr_clone exp).2 then
    if env.stack_get_frame.1 then
      ⟨some (env.expr_clone exp).1, count, format, TRUE, some env.stack_get_frame.2⟩
    else ⟨none, count, format, TRUE, some env.stack_get_frame.2⟩
  else ⟨some (env.expr_clone exp).1, count, format, TRUE, none⟩

/-- The capacity after `display_add` has chosen slot `i`. -/
def display_add_capacity (s : Store) (i : Nat) : Nat :=
  if i = s.maxdisplays then (s.maxdisplays + DISPTAB_DELTA) % 4294967296 else s.maxdisplays

/-- The block after `display_add` has chosen slot `i`, before the record is written. -/
def display_add_block (s : Store) (i : Nat) : List (Option display) :=
  if i = s.maxdisplays then dbg_heap_realloc s.displaypoints (display_add_capacity s i)
  else s.displaypoints

/-- The mark `ndisplays` after `display_add` has chosen slot `i`. -/
def display_add_mark (s : Store) (i : Nat) : Nat :=
  if i = s.ndisplays then (s.ndisplays + 1) % 4294967296 else s.ndisplays

/-- `display_add` fails: the clone has a local binding and there is no current frame. -/
def display_add_fails (env : Env) (exp : expr) : Bool :=
  (env.expr_clone exp).2 && !env.stack_get_frame.1

/-- The invariant of the slot store. -/
structure Inv (s : Store) : Prop where
  length_eq : s.displaypoints.length = s.maxdisplays
  mark_le : s.ndisplays ≤ s.maxdisplays
  max_lt : s.maxdisplays < 4294967296
  max_mod : s.maxdisplays % 8 = 0
  written : ∀ j, j < s.ndisplays → ∃ d, s.displaypoints[j]? = some (some d)
  dead_above : ∀ j, s.ndisplays ≤ j → live_at s.displaypoints j = false

/-- The part of the block that the slot store is about: which cells were written, and
the `exp` of each. -/
def expr_skeleton (dp : List (Option display)) : List (Option (Option expr)) :=
  dp.map (Option.map display.exp)

/-! ## Concrete scenarios -/

/-- A frame descriptor whose fixed fields are zero but for `NameLen = 1`, with a
one-letter name. -/
def frame_of (letter : Nat) : SYMBOL_INFO :=
  ⟨List.replicate 76 0 ++ [1, 0, 0, 0] ++ [0, 1, 0, 0], [letter, 0]⟩

/-- The debuggee is stopped in function `F`; clones have no local binding. -/
def env_global : Env :=
  ⟨fun e => (⟨e.id + 100⟩, false), (true, frame_of 70), fun _ => ⟨0, 0⟩, fun _ => 0⟩

/-- The debuggee is stopped in function `F`; clones have a local binding. -/
def env_local_F : Env :=
  ⟨fun e => (⟨e.id + 100⟩, true), (true, frame_of 70), fun _ => ⟨0, 0⟩, fun _ => 0⟩

/-- No current frame is obtainable; clones have a local binding. -/
def env_no_frame : Env :=
  ⟨fun e => (⟨e.id + 100⟩, true), (false, ⟨[], []⟩), fun _ => ⟨0, 0⟩, fun _ => 0⟩

/-- The unbound live record that `display_add` makes of expression `k` under
`env_global`. -/
def unbound_record (k : Nat) : display := ⟨some ⟨k + 100⟩, 1, 'x', TRUE, none⟩

/-- The store after one `display_add`. -/
def store_one : Store :=
  ⟨some (unbound_record 1) :: List.replicate 7 none, 8, 1⟩

/-- The store after three calls of `display_add`. -/
def store_three : Store :=
  ⟨[some (unbound_record 1), some (unbound_record 2), some (unbound_record 3)] ++
    List.replicate 5 none, 8, 3⟩

/-- The store after three calls of `display_add` and `display_delete(2)`. -/
def store_gap : Store :=
  ⟨[some (unbound_record 1), some { unbound_record 2 with exp := none },
    some (unbound_record 3)] ++ List.replicate 5 none, 8, 3⟩

/-- The store after a failing `display_add` on the empty store. -/
def store_failed_add : Store :=
  ⟨some ⟨none, 1, 'x', TRUE, some ⟨[], []⟩⟩ :: List.replicate 7 none, 8, 1⟩

/-- The store after a `display_add` that succeeds and one that fails. -/
def store_live_then_failed : Store :=
  ⟨[some (unbound_record 1), some ⟨none, 1, 'x', TRUE, some ⟨[], []⟩⟩] ++
    List.replicate 6 none, 8, 2⟩

/-- A call of `display_add` or of `display_delete`. -/
inductive Op where
  | add (env : Env) (exp : expr) (count : Int) (format : Char)
  | delete (displaynum : Int)

/-- The store after a sequence of calls, when none of them faults. -/
def run : List Op → Store → Option Store
  | [], s => some s
  | Op.add env exp count format :: ops, s =>
    match display_add env s exp count format with
    | .ok (_, s1, _) => run ops s1
    | .error _ => none
  | Op.delete displaynum :: ops, s =>
    match display_delete s displaynum with
    | .ok (_, s1, _) => run ops s1
    | .error _ => none

/-- Seventeen calls of `display_add`, then `display_delete` of the displays 2 to 16. -/
def sparse_ops : List Op :=
  (List.range 17).map (fun k => Op.add env_global ⟨k + 1⟩ 1 'x') ++
    (List.range 15).map (fun k => Op.delete ((k : Int) + 2))

/-- The store after `sparse_ops`: displays 1 and 17 are live, capacity 24. -/
def store_sparse : Store :=
  ⟨[some (unbound_record 1)] ++ List.replicate 15 (some ⟨none, 1, 'x', TRUE, none⟩) ++
    [some (unbound_record 17)] ++ List.replicate 7 none, 24, 17⟩

/-- The event that opens the line of display number `i + 1` in `display_info` and the
value line of `print_one_display(i)`. -/
def header (i : Nat) : Event := Event.dbg_printf "%d: " [printf_arg.int ((i : Int) + 1)]

/-- The store with one live display, bound to function `F` and enabled. -/
def store_bound : Store :=
  ⟨some ⟨some ⟨101⟩, 1, 'x', TRUE, some (frame_of 70)⟩ :: List.replicate 7 none, 8, 1⟩

/-- The mark is tight: the slot just below `ndisplays`, if any, holds a live record. -/
def Tight (s : Store) : Prop :=
  0 < s.ndisplays → live_at s.displaypoints (s.ndisplays - 1) = true

/-- A symbol descriptor as `stack_get_frame` leaves it: the fixed fields take up
`OFFSET_OF(Name, SYMBOL_INFO)` bytes and the name buffer holds at least `NameLen` bytes. -/
def well_formed (si : SYMBOL_INFO) : Prop :=
  si.fixed.length = OFFSET_OF_Name ∧ si.NameLen ≤ si.Name.length

/-- Equality of two descriptors in the words of the specification: the fixed fields match
byte for byte, and so do the first `NameLen` bytes of the names, the length being taken
from the first descriptor. -/
def cmp_symbol_spec (a b : SYMBOL_INFO) : Prop :=
  a.fixed = b.fixed ∧ a.Name.take a.NameLen = b.Name.take a.NameLen

/-! # Theorems -/

/-! ## Memory lemmas -/

theorem load_ok_iff (dp : List (Option display)) (i : Int) (d : display) :
    load dp i = .ok d ↔ 0 ≤ i ∧ dp[i.toNat]? = some (some d) := by
  unfold load
  by_cases hi : i < 0
  · simp [hi]
  · simp only [hi, if_false]
    have h0 : 0 ≤ i := by omega
    rcases h : dp[i.toNat]? with _ | _ | c <;> simp [h0]

theorem load_natCast (dp : List (Option display)) (j : Nat) (d : display) :
    load dp (j : Int) = .ok d ↔ dp[j]? = some (some d) := by
  rw [load_ok_iff]; simp

theorem load_neg (dp : List (Option display)) (i : Int) (h : i < 0) :
    load dp i = .error (.out_of_bounds i) := by
  unfold load; simp [h]

theorem length_dbg_heap_realloc (dp : List (Option display)) (n : Nat) :
    (dbg_heap_realloc dp n).length = n := by
  unfold dbg_heap_realloc
  simp only [List.length_append, List.length_take, List.length_replicate]
  omega

theorem getElem?_dbg_heap_realloc (dp : List (Option display)) (n j : Nat) :
    (dbg_heap_realloc dp n)[j]? =
      if j < n then (if j < dp.length then dp[j]? else some none) else none := by
  unfold dbg_heap_realloc
  rw [List.getElem?_append]
  simp only [List.length_take, List.getElem?_take, List.getElem?_replicate]
  by_cases h1 : j < n <;> by_cases h2 : j < dp.length
  · simp [h1, h2]
  · have h3 : ¬ j < min n dp.length := by omega
    have h4 : j - min n dp.length < n - dp.length := by omega
    simp [h1, h2, h3, h4]
  · have h3 : ¬ j < min n dp.length := by omega
    have h4 : ¬ j - min n dp.length < n - dp.length := by omega
    simp [h1, h3, h4]
  · have h3 : ¬ j < min n dp.length := by omega
    have h4 : ¬ j - min n dp.length < n - dp.length := by omega
    simp [h1, h3, h4]

theorem live_at_iff (dp : List (Option display)) (j : Nat) :
    live_at dp j = true ↔ ∃ d e, dp[j]? = some (some d) ∧ d.exp = some e := by
  unfold live_at
  rcases h : dp[j]? with _ | _ | d
  · simp
  · simp
  · rcases he : d.exp with _ | e <;> simp [he]

theorem tombstone_at_iff (dp : List (Option display)) (j : Nat) :
    tombstone_at dp j = true ↔ ∃ d, dp[j]? = some (some d) ∧ d.exp = none := by
  unfold tombstone_at
  rcases h : dp[j]? with _ | _ | d
  · simp
  · simp
  · rcases he : d.exp with _ | e <;> simp [he]

/-! ## The scan of `display_add` -/

theorem display_add_scan_spec (dp : List (Option display)) :
    ∀ (rem i k : Nat), display_add_scan dp rem i = .ok k →
      i ≤ k ∧ k ≤ i + rem ∧ (∀ j, i ≤ j → j < k → live_at dp j = true) ∧
        (k < i + rem → tombstone_at dp k = true) := by
  intro rem
  induction rem with
  | zero =>
    intro i k h
    simp only [display_add_scan, Except.ok.injEq] at h
    subst h
    refine ⟨le_refl _, le_refl _, ?_, ?_⟩
    · intro j h1 h2; omega
    · intro h1; omega
  | succ rem ih =>
    intro i k h
    simp only [display_add_scan] at h
    rcases hl : load dp (i : Int) with f | d
    · simp [hl] at h
    · simp only [hl] at h
      have hcell := (load_natCast dp i d).1 hl
      by_cases he : d.exp = none
      · simp only [he, if_true, Except.ok.injEq] at h
        subst h
        refine ⟨le_refl _, by omega, ?_, ?_⟩
        · intro j h1 h2; omega
        · intro _
          exact (tombstone_at_iff dp i).2 ⟨d, hcell, he⟩
      · simp only [he, if_false] at h
        obtain ⟨h1, h2, h3, h4⟩ := ih (i + 1) k h
        refine ⟨by omega, by omega, ?_, ?_⟩
        · intro j hj1 hj2
          by_cases hji : j = i
          · subst hji
            obtain ⟨e, hee⟩ := Option.ne_none_iff_exists'.1 he
            exact (live_at_iff dp j).2 ⟨d, e, hcell, hee⟩
          · exact h3 j (by omega) hj2
        · intro hk; exact h4 (by omega)

theorem display_add_scan_total (dp : List (Option display)) :
    ∀ (rem i : Nat), (∀ j, i ≤ j → j < i + rem → ∃ d, dp[j]? = some (some d)) →
      ∃ k, display_add_scan dp rem i = .ok k := by
  intro rem
  induction rem with
  | zero => intro i _; exact ⟨i, rfl⟩
  | succ rem ih =>
    intro i h
    obtain ⟨d, hd⟩ := h i (le_refl _) (by omega)
    have hl := (load_natCast dp i d).2 hd
    simp only [display_add_scan, hl]
    by_cases he : d.exp = none
    · exact ⟨i, by simp [he]⟩
    · simp only [he, if_false]
      exact ih (i + 1) (fun j h1 h2 => h j (by omega) (by omega))

/-! ## `display_add`, step by step -/

theorem display_add_eq (env : Env) (s : Store) (exp : expr) (count : Int) (format : Char) :
    display_add env s exp count format =
      match display_add_scan s.displaypoints s.ndisplays 0 with
      | .error f => .error f
      | .ok i =>
        if i < (display_add_block s i).length then
          .ok (if display_add_fails env exp then FALSE else TRUE,
            ⟨(display_add_block s i).set i (some (display_add_record env exp count format)),
              display_add_capacity s i, display_add_mark s i⟩,
            if display_add_fails env exp then [Event.expr_free (env.expr_clone exp).1]
            else [])
        else .error (.out_of_bounds i) := by
  unfold display_add display_add_block display_add_capacity display_add_mark
    display_add_record display_add_fails
  rcases display_add_scan s.displaypoints s.ndisplays 0 with f | i
  · rfl
  · dsimp only
    rcases hc : (env.expr_clone exp).2 <;> rcases hf : env.stack_get_frame.1 <;>
      split_ifs <;> simp_all

theorem display_add_ok (env : Env) (s : Store) (exp : expr) (count : Int) (format : Char)
    (r : Int) (s1 : Store) (out : List Event)
    (h : display_add env s exp count format = .ok (r, s1, out)) :
    ∃ i, display_add_scan s.displaypoints s.ndisplays 0 = .ok i ∧
      i < (display_add_block s i).length ∧
      s1 = ⟨(display_add_block s i).set i (some (display_add_record env exp count format)),
        display_add_capacity s i, display_add_mark s i⟩ ∧
      r = (if display_add_fails env exp then FALSE else TRUE) ∧
      out = (if display_add_fails env exp then [Event.expr_free (env.expr_clone exp).1]
        else []) := by
  rw [display_add_eq] at h
  rcases hs : display_add_scan s.displaypoints s.ndisplays 0 with f | i
  · simp [hs] at h
  · simp only [hs] at h
    by_cases hlt : i < (display_add_block s i).length
    · simp only [hlt, if_true, Except.ok.injEq, Prod.mk.injEq] at h
      obtain ⟨h1, h2, h3⟩ := h
      exact ⟨i, rfl, hlt, h2.symm, h1.symm, h3.symm⟩
    · simp [hlt] at h

theorem display_add_returns (env : Env) (s : Store) (exp : expr) (count : Int)
    (format : Char) (i : Nat)
    (hs : display_add_scan s.displaypoints s.ndisplays 0 = .ok i)
    (hlt : i < (display_add_block s i).length) :
    ∃ r s1 out, display_add env s exp count format = .ok (r, s1, out) := by
  rw [display_add_eq]
  simp only [hs, hlt, if_true]
  exact ⟨_, _, _, rfl⟩

theorem length_display_add_block (s : Store) (i : Nat)
    (hlen : s.displaypoints.length = s.maxdisplays) :
    (display_add_block s i).length = display_add_capacity s i := by
  unfold display_add_block
  by_cases h : i = s.maxdisplays
  · simp only [h, if_true, length_dbg_heap_realloc]
  · simp only [h, if_false, hlen]
    unfold display_add_capacity
    simp [h]

theorem getElem?_display_add_block (s : Store) (i j : Nat)
    (hlen : s.displaypoints.length = s.maxdisplays) (hj : j < s.maxdisplays)
    (hi : i < (display_add_block s i).length) :
    (display_add_block s i)[j]? = s.displaypoints[j]? := by
  rw [length_display_add_block s i hlen] at hi
  unfold display_add_block
  by_cases h : i = s.maxdisplays
  · simp only [h, if_true, getElem?_dbg_heap_realloc]
    unfold display_add_capacity at hi ⊢
    simp only [h, if_true] at hi ⊢
    have h1 : j < (s.maxdisplays + DISPTAB_DELTA) % 4294967296 := by omega
    have h2 : j < s.displaypoints.length := by omega
    simp [h1, h2]
  · simp [h]

theorem live_at_dbg_heap_realloc (dp : List (Option display)) (n j : Nat)
    (h : live_at (dbg_heap_realloc dp n) j = true) : live_at dp j = true := by
  unfold live_at at h ⊢
  rw [getElem?_dbg_heap_realloc] at h
  by_cases h1 : j < n <;> by_cases h2 : j < dp.length <;> simp_all

theorem live_at_display_add_block (s : Store) (i j : Nat)
    (h : live_at (display_add_block s i) j = true) : live_at s.displaypoints j = true := by
  unfold display_add_block at h
  by_cases hi : i = s.maxdisplays
  · simp only [hi, if_true] at h
    exact live_at_dbg_heap_realloc _ _ _ h
  · simpa [hi] using h

theorem live_at_set_ne (dp : List (Option display)) (i j : Nat) (c : Option display)
    (h : i ≠ j) : live_at (dp.set i c) j = live_at dp j := by
  unfold live_at
  rw [List.getElem?_set_ne h]

theorem Inv_empty : Inv Store.empty := by
  refine ⟨rfl, le_refl _, by decide, by decide, ?_, ?_⟩
  · intro j hj
    exact absurd hj (Nat.not_lt_zero j)
  · intro j _
    simp [live_at, Store.empty]

theorem display_add_scan_le (s : Store) (i : Nat)
    (hs : display_add_scan s.displaypoints s.ndisplays 0 = .ok i) : i ≤ s.ndisplays := by
  have h := (display_add_scan_spec s.displaypoints s.ndisplays 0 i hs).2.1
  omega

theorem Inv_display_add (env : Env) (s : Store) (exp : expr) (count : Int) (format : Char)
    (r : Int) (s1 : Store) (out : List Event) (hinv : Inv s)
    (h : display_add env s exp count format = .ok (r, s1, out)) : Inv s1 := by
  obtain ⟨i, hs, hlt, rfl, -, -⟩ := display_add_ok env s exp count format r s1 out h
  have hi := display_add_scan_le s i hs
  have hlen := length_display_add_block s i hinv.length_eq
  have hcap : i < display_add_capacity s i := by rw [← hlen]; exact hlt
  have h1 := hinv.mark_le
  have h2 := hinv.max_lt
  have h3 := hinv.max_mod
  have hcapP : (i = s.maxdisplays →
        display_add_capacity s i = (s.maxdisplays + 8) % 4294967296) ∧
      (i ≠ s.maxdisplays → display_add_capacity s i = s.maxdisplays) := by
    unfold display_add_capacity DISPTAB_DELTA
    by_cases hm : i = s.maxdisplays
    · rw [if_pos hm]; exact ⟨fun _ => rfl, fun h => absurd hm h⟩
    · rw [if_neg hm]; exact ⟨fun h => absurd h hm, fun _ => rfl⟩
  have hmarkP : (i = s.ndisplays →
        display_add_mark s i = (s.ndisplays + 1) % 4294967296) ∧
      (i ≠ s.ndisplays → display_add_mark s i = s.ndisplays) := by
    unfold display_add_mark
    by_cases hn : i = s.ndisplays
    · rw [if_pos hn]; exact ⟨fun _ => rfl, fun h => absurd hn h⟩
    · rw [if_neg hn]; exact ⟨fun h => absurd h hn, fun _ => rfl⟩
  have hcap2 : display_add_mark s i ≤ display_add_capacity s i ∧
      display_add_capacity s i < 4294967296 ∧ display_add_capacity s i % 8 = 0 := by
    omega
  have hmark : i < display_add_mark s i ∧ display_add_mark s i ≤ s.ndisplays + 1 ∧
      s.ndisplays ≤ display_add_mark s i ∧
      (display_add_mark s i = s.ndisplays + 1 → i = s.ndisplays) := by
    omega
  refine ⟨?_, hcap2.1, hcap2.2.1, hcap2.2.2, ?_, ?_⟩
  · simp only [List.length_set]; exact hlen
  · intro j hj
    dsimp only at hj ⊢
    by_cases hji : i = j
    · subst hji
      exact ⟨_, by rw [List.getElem?_set_self hlt]⟩
    · rw [List.getElem?_set_ne hji]
      have hjn : j < s.ndisplays := by omega
      rw [getElem?_display_add_block s i j hinv.length_eq (by omega) hlt]
      exact hinv.written j hjn
  · intro j hj
    dsimp only at hj ⊢
    have hji : i ≠ j := by omega
    rw [live_at_set_ne _ _ _ _ hji]
    by_contra hlive
    have hl := live_at_display_add_block s i j (by simpa using hlive)
    rw [hinv.dead_above j (by omega)] at hl
    exact Bool.false_ne_true hl

/-! ## `display_delete`, step by step -/

theorem display_delete_ok (s : Store) (n : Int) (r : Int) (s1 : Store) (out : List Event)
    (h : display_delete s n = .ok (r, s1, out)) :
    (display_delete s n = invalid_display_number s) ∨
    (∃ d e nd1, 1 ≤ n ∧ to_unsigned n ≤ s.ndisplays ∧
      s.displaypoints[(n - 1).toNat]? = some (some d) ∧ d.exp = some e ∧
      display_delete_trim (s.displaypoints.set (n - 1).toNat (some { d with exp := none }))
        ((n - 1).toNat + 1) s.ndisplays = .ok nd1 ∧
      r = TRUE ∧ out = [Event.expr_free e] ∧
      s1 = display_delete_shrink
        (s.displaypoints.set (n - 1).toNat (some { d with exp := none }))
        s.maxdisplays nd1) := by
  unfold display_delete at h ⊢
  generalize hk : (n - 1).toNat = k at h ⊢
  by_cases hc : to_unsigned n > s.ndisplays ∨ n = 0 ∨ n < -1
  · left; simp only [hc, if_true]
  · simp only [hc, if_false] at h ⊢
    rcases hl : load s.displaypoints (n - 1) with f | d
    · simp [hl] at h
    · simp only [hl] at h ⊢
      by_cases he : d.exp = none
      · left; simp only [he, if_true]
      · simp only [he, if_false] at h ⊢
        have hn1 : n ≠ -1 := by
          intro hn
          subst hn
          rw [load_neg _ _ (by decide)] at hl
          cases hl
        simp only [hn1, if_false] at h ⊢
        obtain ⟨e, hee⟩ := Option.ne_none_iff_exists'.1 he
        simp only [hee] at h
        rcases ht : display_delete_trim
            (s.displaypoints.set k (some { d with exp := none }))
            (k + 1) s.ndisplays with f | nd1
        · simp [ht] at h
        · simp only [ht, Except.ok.injEq, Prod.mk.injEq] at h
          obtain ⟨h1, h2, h3⟩ := h
          right
          have hcell := ((load_ok_iff _ _ _).1 hl).2
          rw [hk] at hcell
          refine ⟨d, e, nd1, by omega, by omega, hcell, hee, ht, h1.symm, h3.symm, h2.symm⟩

theorem display_delete_invalid_ok (s : Store) (n : Int) (r : Int) (s1 : Store)
    (out : List Event) (h : display_delete s n = .ok (r, s1, out))
    (hinv : display_delete s n = invalid_display_number s) :
    r = TRUE ∧ s1 = s ∧ out = [Event.dbg_printf "Invalid display number\n" []] := by
  rw [hinv] at h
  unfold invalid_display_number at h
  simp only [Except.ok.injEq, Prod.mk.injEq] at h
  exact ⟨h.1.symm, h.2.1.symm, h.2.2.symm⟩

/-- The trim loop, entered with `displaynum + 1 = k ≤ ndisplays`. -/
theorem display_delete_trim_spec (dp : List (Option display)) :
    ∀ (k nd nd1 : Nat), k ≤ nd → nd < 4294967296 →
      display_delete_trim dp k nd = .ok nd1 →
      nd1 ≤ nd ∧ (k < nd → nd1 = nd) ∧
        (k = nd → 1 ≤ nd1 ∧ live_at dp (nd1 - 1) = true ∧
          ∀ j, nd1 ≤ j → j < nd → tombstone_at dp j = true) := by
  intro k
  induction k with
  | zero =>
    intro nd nd1 hk hnd h
    simp only [display_delete_trim] at h
    by_cases hc : to_unsigned (-1) = to_unsigned ((nd : Int) - 1)
    · simp only [hc, if_true] at h
      cases h
    · simp only [hc, if_false, Except.ok.injEq] at h
      subst h
      unfold to_unsigned at hc
      refine ⟨le_refl _, fun _ => rfl, fun h0 => ?_⟩
      exfalso; omega
  | succ k ih =>
    intro nd nd1 hk hnd h
    simp only [display_delete_trim] at h
    by_cases hc : to_unsigned (k : Int) = to_unsigned ((nd : Int) - 1)
    · have hkn : k + 1 = nd := by unfold to_unsigned at hc; omega
      simp only [hc, if_true] at h
      rcases hl : load dp (k : Int) with f | d
      · simp [hl] at h
      · have hl1 := hl
        rw [← hc] at h
        simp only [hl1] at h
        have hcell := (load_natCast dp k d).1 hl
        by_cases he : d.exp = none
        · simp only [he, if_true] at h
          have hu : to_unsigned ((nd : Int) - 1) = k := by unfold to_unsigned; omega
          rw [hc, hu] at h
          obtain ⟨h1, h2, h3⟩ := ih k nd1 (le_refl _) (by omega) h
          obtain ⟨h4, h5, h6⟩ := h3 rfl
          refine ⟨by omega, fun hlt => by omega, fun _ => ⟨h4, h5, ?_⟩⟩
          intro j hj1 hj2
          by_cases hjk : j = k
          · subst hjk
            exact (tombstone_at_iff dp j).2 ⟨d, hcell, he⟩
          · exact h6 j hj1 (by omega)
        · simp only [he, if_false, Except.ok.injEq] at h
          subst h
          obtain ⟨e, hee⟩ := Option.ne_none_iff_exists'.1 he
          refine ⟨le_refl _, fun _ => rfl, fun _ => ⟨by omega, ?_, ?_⟩⟩
          · have : nd - 1 = k := by omega
            rw [this]
            exact (live_at_iff dp k).2 ⟨d, e, hcell, hee⟩
          · intro j hj1 hj2; omega
    · simp only [hc, if_false, Except.ok.injEq] at h
      subst h
      refine ⟨le_refl _, fun _ => rfl, fun h0 => ?_⟩
      exfalso
      apply hc
      unfold to_unsigned
      omega

theorem and_mask_eq (x : Nat) (hx : x < 4294967296) : x &&& 4294967288 = x / 8 * 8 := by
  have h1 : (x &&& 4294967288) % 8 = 0 := by
    have h := Nat.and_pow_two_sub_one_eq_mod (x &&& 4294967288) 3
    rw [Nat.and_assoc] at h
    have h7 : (4294967288 : Nat) &&& (2 ^ 3 - 1) = 0 := by decide
    rw [h7, Nat.and_zero] at h
    exact h.symm
  have h2 : (x &&& 4294967288) / 2 / 2 / 2 = x / 2 / 2 / 2 := by
    rw [Nat.and_div_two, Nat.and_div_two, Nat.and_div_two]
    have h := Nat.and_pow_two_sub_one_eq_mod (x / 2 / 2 / 2) 29
    have e : (4294967288 : Nat) / 2 / 2 / 2 = 2 ^ 29 - 1 := by decide
    rw [e, h]
    apply Nat.mod_eq_of_lt
    omega
  omega

theorem DELTA_MASK_eq : DELTA_MASK = 4294967288 := by decide

/-- What the shrink step of `display_delete` leaves, when the mark is within the
capacity. -/
theorem display_delete_shrink_spec (dp : List (Option display)) (maxd nd : Nat)
    (hle : nd ≤ maxd) (hmax : maxd < 4294967296) :
    (display_delete_shrink dp maxd nd).ndisplays = nd ∧
    (maxd - nd < 16 → display_delete_shrink dp maxd nd = ⟨dp, maxd, nd⟩) ∧
    (16 ≤ maxd - nd → display_delete_shrink dp maxd nd =
      ⟨dbg_heap_realloc dp ((nd + 7) / 8 * 8), (nd + 7) / 8 * 8, nd⟩) := by
  have hu : to_unsigned ((maxd : Int) - (nd : Int)) = maxd - nd := by
    unfold to_unsigned; omega
  unfold display_delete_shrink
  rw [hu]
  unfold DISPTAB_DELTA
  by_cases h : 16 ≤ maxd - nd
  · have h1 : maxd - nd ≥ 2 * 8 := by omega
    have h2 : (nd + 8 - 1) % 4294967296 = nd + 7 := by omega
    have h3 : (nd + 7) &&& DELTA_MASK = (nd + 7) / 8 * 8 := by
      rw [DELTA_MASK_eq]; exact and_mask_eq _ (by omega)
    simp only [h1, if_true, h2, h3]
    exact ⟨trivial, fun hlt => by omega, fun _ => trivial⟩
  · have h1 : ¬ maxd - nd ≥ 2 * 8 := by omega
    simp only [h1, if_false]
    exact ⟨trivial, fun _ => trivial, fun hge => hge.elim⟩

theorem not_live_of_tombstone (dp : List (Option display)) (j : Nat)
    (h : tombstone_at dp j = true) : live_at dp j = false := by
  obtain ⟨d, hd, he⟩ := (tombstone_at_iff dp j).1 h
  unfold live_at
  simp [hd, he]

theorem lt_length_of_getElem? {α : Type} (l : List α) (j : Nat) (a : α)
    (h : l[j]? = some a) : j < l.length := by
  by_contra hlt
  rw [List.getElem?_eq_none (by omega)] at h
  cases h

/-- The facts about a deletion that is carried out, in a store that satisfies the
invariant. -/
theorem display_delete_facts (s : Store) (n : Int) (d : display) (nd1 : Nat)
    (hinv : Inv s) (h1 : 1 ≤ n) (hu : to_unsigned n ≤ s.ndisplays)
    (hcell : s.displaypoints[(n - 1).toNat]? = some (some d))
    (ht : display_delete_trim
      (s.displaypoints.set (n - 1).toNat (some { d with exp := none }))
      ((n - 1).toNat + 1) s.ndisplays = .ok nd1) :
    (n - 1).toNat + 1 ≤ s.ndisplays ∧ ((n - 1).toNat : Int) = n - 1 ∧ nd1 ≤ s.ndisplays ∧
    ((n - 1).toNat + 1 < s.ndisplays → nd1 = s.ndisplays) ∧
    ((n - 1).toNat + 1 = s.ndisplays → 1 ≤ nd1 ∧ nd1 ≤ (n - 1).toNat ∧
      live_at s.displaypoints (nd1 - 1) = true) ∧
    (∀ j, j < nd1 → ∃ c,
      (s.displaypoints.set (n - 1).toNat (some { d with exp := none }))[j]? =
        some (some c)) ∧
    (∀ j, nd1 ≤ j →
      live_at (s.displaypoints.set (n - 1).toNat (some { d with exp := none })) j =
        false) := by
  have hklen := lt_length_of_getElem? _ _ _ hcell
  have hlen := hinv.length_eq
  have hmax := hinv.max_lt
  have hmod := hinv.max_mod
  have hle := hinv.mark_le
  have hk : (n - 1).toNat + 1 ≤ s.ndisplays := by unfold to_unsigned at hu; omega
  have hkz : ((n - 1).toNat : Int) = n - 1 := by omega
  generalize (n - 1).toNat = k at *
  obtain ⟨t1, t2, t3⟩ := display_delete_trim_spec _ (k + 1) s.ndisplays nd1 hk (by omega) ht
  have htomb : tombstone_at (s.displaypoints.set k (some { d with exp := none })) k = true := by
    apply (tombstone_at_iff _ _).2
    exact ⟨_, List.getElem?_set_self hklen, rfl⟩
  refine ⟨hk, hkz, t1, t2, ?_, ?_, ?_⟩
  · intro hkn
    obtain ⟨t4, t5, t6⟩ := t3 hkn
    have hne : nd1 - 1 ≠ k := by
      intro heq
      rw [heq, not_live_of_tombstone _ _ htomb] at t5
      cases t5
    refine ⟨t4, by omega, ?_⟩
    rw [live_at_set_ne _ _ _ _ (Ne.symm hne)] at t5
    exact t5
  · intro j hj
    by_cases hjk : k = j
    · subst hjk
      exact ⟨_, List.getElem?_set_self hklen⟩
    · rw [List.getElem?_set_ne hjk]
      exact hinv.written j (by omega)
  · intro j hj
    by_cases hjn : j < s.ndisplays
    · have hkn : k + 1 = s.ndisplays := by
        by_contra hne
        have := t2 (by omega)
        omega
      exact not_live_of_tombstone _ _ ((t3 hkn).2.2 j hj hjn)
    · have hjk : k ≠ j := by omega
      rw [live_at_set_ne _ _ _ _ hjk]
      exact hinv.dead_above j (by omega)

theorem Inv_display_delete (s : Store) (n : Int) (r : Int) (s1 : Store) (out : List Event)
    (hinv : Inv s) (h : display_delete s n = .ok (r, s1, out)) : Inv s1 := by
  rcases display_delete_ok s n r s1 out h with hv | ⟨d, e, nd1, h1, hu, hcell, -, ht, -, -, rfl⟩
  · rw [(display_delete_invalid_ok s n r s1 out h hv).2.1]; exact hinv
  · obtain ⟨f1, -, f3, -, -, f6, f7⟩ := display_delete_facts s n d nd1 hinv h1 hu hcell ht
    have hlen := hinv.length_eq
    have hmax := hinv.max_lt
    have hmod := hinv.max_mod
    have hle := hinv.mark_le
    obtain ⟨-, k1, k2⟩ := display_delete_shrink_spec
      (s.displaypoints.set (n - 1).toNat (some { d with exp := none }))
      s.maxdisplays nd1 (by omega) hmax
    by_cases hs : s.maxdisplays - nd1 < 16
    · rw [k1 hs]
      exact ⟨by simp only [List.length_set]; exact hlen, by dsimp only; omega, hmax, hmod,
        f6, f7⟩
    · rw [k2 (by omega)]
      refine ⟨length_dbg_heap_realloc _ _, by dsimp only; omega, by dsimp only; omega,
        by dsimp only; omega, ?_, ?_⟩
      · intro j hj
        dsimp only at hj ⊢
        rw [getElem?_dbg_heap_realloc]
        have a1 : j < (nd1 + 7) / 8 * 8 := by omega
        have a2 : j < (s.displaypoints.set (n - 1).toNat
            (some { d with exp := none })).length := by
          simp only [List.length_set]; omega
        simp only [a1, a2, if_true]
        exact f6 j hj
      · intro j hj
        dsimp only at hj ⊢
        by_contra hlive
        have hl := live_at_dbg_heap_realloc _ _ _ (Bool.of_not_eq_false hlive)
        rw [f7 j hj] at hl
        cases hl

/-! ## `print_one_display`, `display_print` and `display_enable` keep the skeleton -/

theorem getElem?_expr_skeleton (dp : List (Option display)) (j : Nat) :
    (expr_skeleton dp)[j]? = (dp[j]?).map (Option.map display.exp) := by
  unfold expr_skeleton
  rw [List.getElem?_map]

theorem length_eq_of_skeleton (dp dp1 : List (Option display))
    (h : expr_skeleton dp1 = expr_skeleton dp) : dp1.length = dp.length := by
  have := congrArg List.length h
  unfold expr_skeleton at this
  simpa using this

theorem live_at_of_skeleton (dp dp1 : List (Option display))
    (h : expr_skeleton dp1 = expr_skeleton dp) (j : Nat) : live_at dp1 j = live_at dp j := by
  have hj := congrArg (fun l => l[j]?) h
  simp only [getElem?_expr_skeleton] at hj
  unfold live_at
  rcases h1 : dp1[j]? with _ | _ | d1 <;> rcases h2 : dp[j]? with _ | _ | d2 <;>
    simp_all

theorem written_of_skeleton (dp dp1 : List (Option display))
    (h : expr_skeleton dp1 = expr_skeleton dp) (j : Nat)
    (hw : ∃ d, dp[j]? = some (some d)) : ∃ d, dp1[j]? = some (some d) := by
  have hj := congrArg (fun l => l[j]?) h
  simp only [getElem?_expr_skeleton] at hj
  obtain ⟨d, hd⟩ := hw
  rcases h1 : dp1[j]? with _ | _ | d1
  · simp [h1, hd] at hj
  · simp [h1, hd] at hj
  · exact ⟨d1, rfl⟩

theorem expr_skeleton_set_enabled (dp : List (Option display)) (i : Nat) (d : display)
    (x : Int) (h : dp[i]? = some (some d)) :
    expr_skeleton (dp.set i (some { d with enabled := x })) = expr_skeleton dp := by
  apply List.ext_getElem?
  intro j
  rw [getElem?_expr_skeleton, getElem?_expr_skeleton]
  by_cases hij : i = j
  · subst hij
    rw [List.getElem?_set_self (lt_length_of_getElem? _ _ _ h), h]
    rfl
  · rw [List.getElem?_set_ne hij]

theorem Inv_of_skeleton (s s1 : Store) (hinv : Inv s)
    (h : expr_skeleton s1.displaypoints = expr_skeleton s.displaypoints)
    (hm : s1.maxdisplays = s.maxdisplays) (hn : s1.ndisplays = s.ndisplays) : Inv s1 := by
  refine ⟨?_, ?_, ?_, ?_, ?_, ?_⟩
  · rw [length_eq_of_skeleton _ _ h, hm]; exact hinv.length_eq
  · rw [hm, hn]; exact hinv.mark_le
  · rw [hm]; exact hinv.max_lt
  · rw [hm]; exact hinv.max_mod
  · intro j hj
    rw [hn] at hj
    exact written_of_skeleton _ _ h j (hinv.written j hj)
  · intro j hj
    rw [hn] at hj
    rw [live_at_of_skeleton _ _ h j]
    exact hinv.dead_above j hj

theorem print_one_display_skeleton (env : Env) (dp dp1 : List (Option display)) (i : Int)
    (out : List Event) (h : print_one_display env dp i = .ok (dp1, out)) :
    expr_skeleton dp1 = expr_skeleton dp := by
  unfold print_one_display at h
  rcases hl : load dp i with f | d
  · simp [hl] at h
  · simp only [hl] at h
    have hcell := ((load_ok_iff _ _ _).1 hl).2
    rcases he : d.exp with _ | e
    · simp [he] at h
    · simp only [he] at h
      split at h
      · simp only [Except.ok.injEq, Prod.mk.injEq] at h
        rw [← h.1]
        have hsk := expr_skeleton_set_enabled dp _ d FALSE hcell
        rw [he] at hsk
        exact hsk
      · simp only [Except.ok.injEq, Prod.mk.injEq] at h
        rw [← h.1]

theorem display_print_loop_skeleton (env : Env) (func : SYMBOL_INFO) :
    ∀ (rem i : Nat) (dp dp1 : List (Option display)) (out : List Event),
      display_print_loop env func rem i dp = .ok (dp1, out) →
      expr_skeleton dp1 = expr_skeleton dp := by
  intro rem
  induction rem with
  | zero =>
    intro i dp dp1 out h
    simp only [display_print_loop, Except.ok.injEq, Prod.mk.injEq] at h
    rw [← h.1]
  | succ rem ih =>
    intro i dp dp1 out h
    simp only [display_print_loop] at h
    rcases hl : load dp (i : Int) with f | d
    · simp [hl] at h
    · simp only [hl] at h
      split at h
      · exact ih _ _ _ _ h
      · split at h
        · exact ih _ _ _ _ h
        · rcases hp : print_one_display env dp (i : Int) with f | ⟨dp2, out2⟩
          · simp [hp] at h
          · simp only [hp] at h
            rcases hr : display_print_loop env func rem (i + 1) dp2 with f | ⟨dp3, out3⟩
            · simp [hr] at h
            · simp only [hr, Except.ok.injEq, Prod.mk.injEq] at h
              rw [← h.1, ih _ _ _ _ hr, print_one_display_skeleton env dp dp2 _ out2 hp]

theorem display_print_frame (env : Env) (s : Store) (r : Int) (s1 : Store)
    (out : List Event) (h : display_print env s = .ok (r, s1, out)) :
    expr_skeleton s1.displaypoints = expr_skeleton s.displaypoints ∧
      s1.maxdisplays = s.maxdisplays ∧ s1.ndisplays = s.ndisplays := by
  unfold display_print at h
  split at h
  · rcases hr : display_print_loop env env.stack_get_frame.2 s.ndisplays 0 s.displaypoints
      with f | ⟨dp, o⟩
    · simp [hr] at h
    · simp only [hr, Except.ok.injEq, Prod.mk.injEq] at h
      rw [← h.2.1]
      exact ⟨display_print_loop_skeleton env _ _ _ _ _ _ hr, rfl, rfl⟩
  · simp only [Except.ok.injEq, Prod.mk.injEq] at h
    rw [← h.2.1]
    exact ⟨rfl, rfl, rfl⟩

theorem display_enable_frame (env : Env) (s : Store) (n enable : Int) (r : Int) (s1 : Store)
    (out : List Event) (h : display_enable env s n enable = .ok (r, s1, out)) :
    expr_skeleton s1.displaypoints = expr_skeleton s.displaypoints ∧
      s1.maxdisplays = s.maxdisplays ∧ s1.ndisplays = s.ndisplays := by
  unfold display_enable invalid_display_number at h
  generalize hk : (n - 1).toNat = k at h
  split at h
  · split at h
    · simp only [Except.ok.injEq, Prod.mk.injEq] at h
      rw [← h.2.1]
      exact ⟨rfl, rfl, rfl⟩
    · rcases hl : load s.displaypoints (n - 1) with f | d
      · simp [hl] at h
      · simp only [hl] at h
        have hcell := ((load_ok_iff _ _ _).1 hl).2
        rw [hk] at hcell
        have hsk := expr_skeleton_set_enabled s.displaypoints k d (to_char enable) hcell
        split at h
        · simp only [Except.ok.injEq, Prod.mk.injEq] at h
          rw [← h.2.1]
          exact ⟨rfl, rfl, rfl⟩
        · split at h
          · rcases hp : print_one_display env
                (s.displaypoints.set k (some { d with enabled := to_char enable })) (n - 1)
              with f | ⟨dp2, out2⟩
            · simp [hp] at h
            · simp only [hp, Except.ok.injEq, Prod.mk.injEq] at h
              rw [← h.2.1]
              exact ⟨(print_one_display_skeleton env _ dp2 _ out2 hp).trans hsk, rfl, rfl⟩
          · simp only [Except.ok.injEq, Prod.mk.injEq] at h
            rw [← h.2.1]
            exact ⟨hsk, rfl, rfl⟩
  · simp only [Except.ok.injEq, Prod.mk.injEq] at h
    rw [← h.2.1]
    exact ⟨rfl, rfl, rfl⟩

/-- Every reachable store satisfies the invariant. -/
theorem Inv_of_Reachable (s : Store) (h : Reachable s) : Inv s := by
  induction h with
  | empty => exact Inv_empty
  | add env s exp count format r s1 out _ hstep ih =>
    exact Inv_display_add env s exp count format r s1 out ih hstep
  | delete s n r s1 out _ hstep ih => exact Inv_display_delete s n r s1 out ih hstep
  | enable env s n enable r s1 out _ hstep ih =>
    obtain ⟨h1, h2, h3⟩ := display_enable_frame env s n enable r s1 out hstep
    exact Inv_of_skeleton s s1 ih h1 h2 h3
  | print env s r s1 out _ hstep ih =>
    obtain ⟨h1, h2, h3⟩ := display_print_frame env s r s1 out hstep
    exact Inv_of_skeleton s s1 ih h1 h2 h3

/-! ## The scenarios are reachable -/

theorem Reachable_store_one : Reachable store_one :=
  Reachable.add env_global Store.empty ⟨1⟩ 1 'x' TRUE store_one [] Reachable.empty rfl

theorem Reachable_store_three : Reachable store_three := by
  have h2 := Reachable.add env_global store_one ⟨2⟩ 1 'x' TRUE _ [] Reachable_store_one rfl
  exact Reachable.add env_global _ ⟨3⟩ 1 'x' TRUE store_three [] h2 rfl

theorem Reachable_store_gap : Reachable store_gap :=
  Reachable.delete store_three 2 TRUE store_gap [Event.expr_free ⟨102⟩]
    Reachable_store_three rfl

theorem Reachable_store_failed_add : Reachable store_failed_add :=
  Reachable.add env_no_frame Store.empty ⟨1⟩ 1 'x' FALSE store_failed_add
    [Event.expr_free ⟨101⟩] Reachable.empty rfl

theorem Reachable_store_live_then_failed : Reachable store_live_then_failed :=
  Reachable.add env_no_frame store_one ⟨2⟩ 1 'x' FALSE store_live_then_failed
    [Event.expr_free ⟨102⟩] Reachable_store_one rfl

/-! ## C1 -/

/-- C1 (the code at the failing input and beyond): on every reachable store
`display_delete(-1)` does not delete anything.  The test `displaynum > ndisplays`
compares `-1` as an `unsigned int`, so the call takes the branch that prints
"Invalid display number", returns `TRUE` and leaves `ndisplays`, `maxdisplays` and
every slot as they were. -/
theorem C1_delete_all_is_rejected (s : Store) (h : Reachable s) :
    display_delete s (-1) =
      .ok (TRUE, s, [Event.dbg_printf "Invalid display number\n" []]) := by
  have hinv := Inv_of_Reachable s h
  have h1 := hinv.mark_le
  have h2 := hinv.max_lt
  have h3 := hinv.max_mod
  have hc : to_unsigned (-1) > s.ndisplays ∨ (-1 : Int) = 0 ∨ (-1 : Int) < -1 := by
    left; unfold to_unsigned; omega
  unfold display_delete invalid_display_number
  rw [if_pos hc]

/-- C1, at the store that holds one live display: after `display_delete(-1)` the display
is still live and `ndisplays` is still 1. -/
theorem C1_delete_all_is_rejected_witness :
    display_delete store_one (-1) =
        .ok (TRUE, store_one, [Event.dbg_printf "Invalid display number\n" []]) ∧
      store_one.ndisplays = 1 ∧ live_at store_one.displaypoints 0 = true :=
  ⟨C1_delete_all_is_rejected store_one Reachable_store_one, rfl, rfl⟩

/-! ## C2 -/

theorem display_add_record_of_success (env : Env) (exp : expr) (count : Int) (format : Char)
    (h : display_add_fails env exp = false) :
    display_add_record env exp count format =
      ⟨some (env.expr_clone exp).1, count, format, TRUE,
        if (env.expr_clone exp).2 then some env.stack_get_frame.2 else none⟩ := by
  unfold display_add_record
  unfold display_add_fails at h
  rcases hc : (env.expr_clone exp).2 <;> rcases hf : env.stack_get_frame.1 <;>
    simp [hc, hf] at h ⊢

theorem display_add_record_of_failure (env : Env) (exp : expr) (count : Int) (format : Char)
    (h : display_add_fails env exp = true) :
    display_add_record env exp count format =
      ⟨none, count, format, TRUE, some env.stack_get_frame.2⟩ := by
  unfold display_add_record
  unfold display_add_fails at h
  rcases hc : (env.expr_clone exp).2 <;> rcases hf : env.stack_get_frame.1 <;>
    simp [hc, hf] at h ⊢

/-- C2: in a store with `ndisplays ≤ maxdisplays` (an `unsigned int`), a `display_add`
that returns `TRUE` writes the new record at an index `i` that is the least index below
`ndisplays` holding a tombstone when there is one, and `ndisplays` otherwise;
`ndisplays` grows by one exactly when `i` is the old `ndisplays`, and the capacity grows
by exactly 8 exactly when `i` is the old capacity.  In the scenario add, add, add,
delete(2), add the fourth expression lands at display number 2 and `ndisplays` stays 3. -/
theorem C2_display_add_slot (env : Env) (s : Store) (exp : expr) (count : Int)
    (format : Char) (s1 : Store) (out : List Event)
    (hle : s.ndisplays ≤ s.maxdisplays) (hmax : s.maxdisplays < 4294967296)
    (h : display_add env s exp count format = .ok (TRUE, s1, out)) :
    (∃ i,
      ((∃ j, j < s.ndisplays ∧ tombstone_at s.displaypoints j = true) →
        i < s.ndisplays ∧ tombstone_at s.displaypoints i = true ∧
          ∀ j, j < i → tombstone_at s.displaypoints j = false) ∧
      ((∀ j, j < s.ndisplays → tombstone_at s.displaypoints j = false) →
        i = s.ndisplays) ∧
      s1.displaypoints[i]? = some (some ⟨some (env.expr_clone exp).1, count, format, TRUE,
        if (env.expr_clone exp).2 then some env.stack_get_frame.2 else none⟩) ∧
      (i = s.ndisplays → s1.ndisplays = s.ndisplays + 1) ∧
      (i ≠ s.ndisplays → s1.ndisplays = s.ndisplays) ∧
      (i = s.maxdisplays → s1.maxdisplays = s.maxdisplays + 8) ∧
      (i ≠ s.maxdisplays → s1.maxdisplays = s.maxdisplays)) ∧
    (display_add env_global Store.empty ⟨1⟩ 1 'x' = .ok (TRUE, store_one, []) ∧
      (∃ s2, display_add env_global store_one ⟨2⟩ 1 'x' = .ok (TRUE, s2, []) ∧
        display_add env_global s2 ⟨3⟩ 1 'x' = .ok (TRUE, store_three, [])) ∧
      display_delete store_three 2 = .ok (TRUE, store_gap, [Event.expr_free ⟨102⟩]) ∧
      ∃ s5, display_add env_global store_gap ⟨4⟩ 1 'x' = .ok (TRUE, s5, []) ∧
        s5.displaypoints[1]? = some (some ⟨some ⟨104⟩, 1, 'x', TRUE, none⟩) ∧
        s5.ndisplays = 3) := by
  refine ⟨?_, rfl, ⟨_, rfl, rfl⟩, rfl, ⟨_, rfl, rfl, rfl⟩⟩
  obtain ⟨i, hs, hlt, rfl, hr, -⟩ := display_add_ok env s exp count format TRUE s1 out h
  obtain ⟨-, s2, s3, s4⟩ := display_add_scan_spec s.displaypoints s.ndisplays 0 i hs
  have hfail : display_add_fails env exp = false := by
    rcases hf : display_add_fails env exp
    · rfl
    · rw [hf] at hr; exact absurd hr (by decide)
  have hcapP : (i = s.maxdisplays →
        display_add_capacity s i = (s.maxdisplays + 8) % 4294967296) ∧
      (i ≠ s.maxdisplays → display_add_capacity s i = s.maxdisplays) := by
    unfold display_add_capacity DISPTAB_DELTA
    by_cases hm : i = s.maxdisplays
    · rw [if_pos hm]; exact ⟨fun _ => rfl, fun h => absurd hm h⟩
    · rw [if_neg hm]; exact ⟨fun h => absurd h hm, fun _ => rfl⟩
  have hmarkP : (i = s.ndisplays →
        display_add_mark s i = (s.ndisplays + 1) % 4294967296) ∧
      (i ≠ s.ndisplays → display_add_mark s i = s.ndisplays) := by
    unfold display_add_mark
    by_cases hn : i = s.ndisplays
    · rw [if_pos hn]; exact ⟨fun _ => rfl, fun h => absurd hn h⟩
    · rw [if_neg hn]; exact ⟨fun h => absurd h hn, fun _ => rfl⟩
  have hgrow : i = s.maxdisplays → i < (s.maxdisplays + 8) % 4294967296 := by
    intro hm
    have hl := hlt
    unfold display_add_block at hl
    rw [if_pos hm, length_dbg_heap_realloc, hcapP.1 hm] at hl
    exact hl
  refine ⟨i, ?_, ?_, ?_, ?_, ?_, ?_, ?_⟩
  · rintro ⟨j, hj, hjt⟩
    have hi : i < s.ndisplays := by
      by_contra hge
      have hlive := s3 j (Nat.zero_le j) (by omega)
      rw [not_live_of_tombstone _ _ hjt] at hlive
      cases hlive
    refine ⟨hi, s4 (by omega), ?_⟩
    intro j2 hj2
    have hlive := s3 j2 (Nat.zero_le j2) hj2
    rcases ht : tombstone_at s.displaypoints j2
    · rfl
    · rw [not_live_of_tombstone _ _ ht] at hlive
      cases hlive
  · intro hall
    by_contra hne
    have ht := s4 (by omega)
    rw [hall i (by omega)] at ht
    cases ht
  · dsimp only
    rw [List.getElem?_set_self hlt, display_add_record_of_success env exp count format hfail]
  · intro hn; dsimp only; omega
  · intro hn; dsimp only; omega
  · intro hm; dsimp only; have := hgrow hm; omega
  · intro hm; dsimp only; omega

/-- C2 at the store with a gap at display number 2: the new record reuses index 1,
`ndisplays` stays 3 and the capacity stays 8. -/
theorem C2_display_add_slot_witness :
    ∃ s5, display_add env_global store_gap ⟨4⟩ 1 'x' = .ok (TRUE, s5, []) ∧
      ∃ i, s5.displaypoints[i]? = some (some ⟨some ⟨104⟩, 1, 'x', TRUE, none⟩) ∧
        (i ≠ store_gap.ndisplays → s5.ndisplays = store_gap.ndisplays) ∧
        (i ≠ store_gap.maxdisplays → s5.maxdisplays = store_gap.maxdisplays) := by
  refine ⟨_, rfl, ?_⟩
  obtain ⟨i, -, -, h3, -, h5, -, h7⟩ :=
    (C2_display_add_slot env_global store_gap ⟨4⟩ 1 'x' _ [] (by decide) (by decide) rfl).1
  exact ⟨i, h3, h5, h7⟩

/-! ## C3 -/

/-- C3 (the code at the failing input): on the empty store, a `display_add` whose clone
has a local binding while no current frame is obtainable returns `FALSE` and releases the
clone, but it has already executed `ndisplays++`: the store it leaves has
`ndisplays = 1` where the store before had `ndisplays = 0`, with a tombstone in slot 0
and capacity 8. -/
theorem C3_failed_add_moves_the_mark :
    display_add env_no_frame Store.empty ⟨1⟩ 1 'x' =
        .ok (FALSE, store_failed_add, [Event.expr_free ⟨101⟩]) ∧
      Store.empty.ndisplays = 0 ∧ store_failed_add.ndisplays = 1 ∧
      Store.empty.maxdisplays = 0 ∧ store_failed_add.maxdisplays = 8 ∧
      tombstone_at store_failed_add.displaypoints 0 = true :=
  ⟨rfl, rfl, rfl, rfl, rfl, rfl⟩

/-! ## C5 -/

/-- C5 (the code at two failing inputs).  First: after one successful and one failing
`display_add`, display 1 is the only live record, hence the highest-numbered one, and
`display_delete(1)` leaves `ndisplays` at 2.  Second: in the store that holds one live
display, `display_delete(1)` brings `ndisplays` to 0 and then evaluates the loop
condition once more; `displaynum == ndisplays - 1` holds between `-1` and the
`unsigned int` `0 - 1`, so the loop reads `displaypoints[-1]`. -/
theorem C5_highest_deleted_mark_stays :
    (live_at store_live_then_failed.displaypoints 0 = true ∧
      (∀ j, j < 8 → live_at store_live_then_failed.displaypoints j = true → j = 0) ∧
      store_live_then_failed.ndisplays = 2 ∧
      ∃ s1, display_delete store_live_then_failed 1 =
          .ok (TRUE, s1, [Event.expr_free ⟨101⟩]) ∧ s1.ndisplays = 2) ∧
    (live_at store_one.displaypoints 0 = true ∧ store_one.ndisplays = 1 ∧
      display_delete store_one 1 = .error (.out_of_bounds (-1))) :=
  ⟨⟨rfl, by decide, rfl, _, rfl, rfl⟩, rfl, rfl, rfl⟩

/-! ## C6 -/

/-- The first half of C6 holds: in a reachable store every live record lies below
`ndisplays`. -/
theorem live_below_mark (s : Store) (h : Reachable s) (j : Nat)
    (hlive : live_at s.displaypoints j = true) : j < s.ndisplays := by
  by_contra hge
  rw [(Inv_of_Reachable s h).dead_above j (by omega)] at hlive
  cases hlive

/-- C6 (the code at the failing input): the store left by a failing `display_add` on the
empty store is reachable, has `ndisplays = 1`, and the slot at index `ndisplays - 1` is a
tombstone, not a live record: the mark is not tight. -/
theorem C6_mark_not_tight :
    Reachable store_failed_add ∧ 0 < store_failed_add.ndisplays ∧
      live_at store_failed_add.displaypoints (store_failed_add.ndisplays - 1) = false ∧
      tombstone_at store_failed_add.displaypoints (store_failed_add.ndisplays - 1) = true :=
  ⟨Reachable_store_failed_add, by decide, rfl, rfl⟩

/-! ## C8 -/

/-- C8: in every store reachable from the empty store (capacity 0), the capacity
`maxdisplays` is a multiple of `DISPTAB_DELTA = 8`. -/
theorem C8_capacity_multiple_of_delta (s : Store) (h : Reachable s) :
    DISPTAB_DELTA ∣ s.maxdisplays := by
  have := (Inv_of_Reachable s h).max_mod
  unfold DISPTAB_DELTA
  omega

/-- C8 at the store that holds three displays. -/
theorem C8_capacity_multiple_of_delta_witness : DISPTAB_DELTA ∣ store_three.maxdisplays :=
  C8_capacity_multiple_of_delta store_three Reachable_store_three

/-! ## C9 -/

/-- C9: for every store and every `int` `n` that is 0, below -1, above `ndisplays`, or in
`[1, ndisplays]` with a tombstone in slot `n - 1`, `display_delete(n)` prints
"Invalid display number", returns `TRUE` and leaves the store as it was. -/
theorem C9_invalid_display_number (s : Store) (n : Int)
    (hint : -2147483648 ≤ n ∧ n < 2147483648)
    (hn : n = 0 ∨ n < -1 ∨ (s.ndisplays : Int) < n ∨
      (1 ≤ n ∧ n ≤ (s.ndisplays : Int) ∧
        tombstone_at s.displaypoints (n - 1).toNat = true)) :
    display_delete s n =
      .ok (TRUE, s, [Event.dbg_printf "Invalid display number\n" []]) := by
  unfold display_delete invalid_display_number
  by_cases hc : to_unsigned n > s.ndisplays ∨ n = 0 ∨ n < -1
  · rw [if_pos hc]
  · rw [if_neg hc]
    have hn1 : 1 ≤ n ∧ n ≤ (s.ndisplays : Int) ∧
        tombstone_at s.displaypoints (n - 1).toNat = true := by
      rcases hn with h | h | h | h
      · exact absurd (Or.inr (Or.inl h)) hc
      · exact absurd (Or.inr (Or.inr h)) hc
      · exfalso
        apply hc
        left
        unfold to_unsigned
        omega
      · exact h
    obtain ⟨d, hd, he⟩ := (tombstone_at_iff _ _).1 hn1.2.2
    have hl : load s.displaypoints (n - 1) = .ok d :=
      (load_ok_iff _ _ _).2 ⟨by omega, hd⟩
    rw [hl]
    dsimp only
    rw [if_pos he]

/-- C9 at the store with a gap: the tombstoned display number 2 is rejected. -/
theorem C9_invalid_display_number_witness :
    display_delete store_gap 2 =
      .ok (TRUE, store_gap, [Event.dbg_printf "Invalid display number\n" []]) :=
  C9_invalid_display_number store_gap 2 (by decide)
    (Or.inr (Or.inr (Or.inr ⟨by decide, by decide, rfl⟩)))

/-! ## C4 -/

/-- The trim loop returns when the slots below its entry point are written and, if it
starts at the mark, one of them is live. -/
theorem display_delete_trim_total (dp : List (Option display)) :
    ∀ (k nd : Nat), k ≤ nd → nd < 4294967296 →
      (∀ i, i < k → ∃ d, dp[i]? = some (some d)) →
      (k = nd → ∃ j, j < k ∧ live_at dp j = true) →
      ∃ nd1, display_delete_trim dp k nd = .ok nd1 := by
  intro k
  induction k with
  | zero =>
    intro nd hk hnd _ hlive
    simp only [display_delete_trim]
    by_cases hc : to_unsigned (-1) = to_unsigned ((nd : Int) - 1)
    · exfalso
      have h0 : 0 = nd := by unfold to_unsigned at hc; omega
      obtain ⟨j, hj, -⟩ := hlive h0
      omega
    · rw [if_neg hc]
      exact ⟨nd, rfl⟩
  | succ k ih =>
    intro nd hk hnd hw hlive
    simp only [display_delete_trim]
    by_cases hc : to_unsigned (k : Int) = to_unsigned ((nd : Int) - 1)
    · have hkn : k + 1 = nd := by unfold to_unsigned at hc; omega
      rw [if_pos hc]
      obtain ⟨d, hd⟩ := hw k (by omega)
      rw [(load_natCast dp k d).2 hd]
      dsimp only
      by_cases he : d.exp = none
      · rw [if_pos he]
        have hu : to_unsigned ((nd : Int) - 1) = k := by unfold to_unsigned; omega
        rw [hu]
        apply ih k (le_refl _) (by omega) (fun i hi => hw i (by omega))
        intro _
        obtain ⟨j, hj, hjl⟩ := hlive hkn
        have hjk : j ≠ k := by
          intro hjk
          subst hjk
          have ht : tombstone_at dp j = true := (tombstone_at_iff dp j).2 ⟨d, hd, he⟩
          rw [not_live_of_tombstone _ _ ht] at hjl
          cases hjl
        exact ⟨j, by omega, hjl⟩
      · rw [if_neg he]
        exact ⟨nd, rfl⟩
    · rw [if_neg hc]
      exact ⟨nd, rfl⟩

/-- Lookups below the new capacity are not affected by the shrink step. -/
theorem getElem?_display_delete_shrink (dp : List (Option display)) (maxd nd j : Nat)
    (hle : nd ≤ maxd) (hmax : maxd < 4294967296) (hlen : dp.length = maxd) (hj : j < nd) :
    (display_delete_shrink dp maxd nd).displaypoints[j]? = dp[j]? := by
  obtain ⟨-, k1, k2⟩ := display_delete_shrink_spec dp maxd nd hle hmax
  by_cases hs : maxd - nd < 16
  · rw [k1 hs]
  · rw [k2 (by omega)]
    dsimp only
    rw [getElem?_dbg_heap_realloc]
    have a1 : j < (nd + 7) / 8 * 8 := by omega
    have a2 : j < dp.length := by omega
    rw [if_pos a1, if_pos a2]

/-- `display_delete` of an `int` returns, in a reachable store, as soon as some live
record is not the one it is asked to delete. -/
theorem display_delete_returns (s : Store) (n : Int) (j : Nat) (hr : Reachable s)
    (hint : -2147483648 ≤ n ∧ n < 2147483648) (hj : n - 1 ≠ (j : Int))
    (hlive : live_at s.displaypoints j = true) :
    ∃ r s1 out, display_delete s n = .ok (r, s1, out) := by
  have hinv := Inv_of_Reachable s hr
  have hjn := live_below_mark s hr j hlive
  have hlen := hinv.length_eq
  have hmax := hinv.max_lt
  have hle := hinv.mark_le
  have hmod := hinv.max_mod
  unfold display_delete invalid_display_number
  by_cases hc : to_unsigned n > s.ndisplays ∨ n = 0 ∨ n < -1
  · rw [if_pos hc]; exact ⟨_, _, _, rfl⟩
  · rw [if_neg hc]
    have hn1 : 1 ≤ n ∧ n ≤ (s.ndisplays : Int) := by
      unfold to_unsigned at hc; omega
    have hk : (n - 1).toNat + 1 ≤ s.ndisplays ∧ (((n - 1).toNat : Nat) : Int) = n - 1 := by
      omega
    obtain ⟨d, hd⟩ := hinv.written (n - 1).toNat (by omega)
    have hl : load s.displaypoints (n - 1) = .ok d := (load_ok_iff _ _ _).2 ⟨by omega, hd⟩
    rw [hl]
    dsimp only
    by_cases he : d.exp = none
    · rw [if_pos he]; exact ⟨_, _, _, rfl⟩
    · rw [if_neg he, if_neg (by omega : ¬ n = -1)]
      obtain ⟨e, hee⟩ := Option.ne_none_iff_exists'.1 he
      rw [hee]
      dsimp only
      generalize hkk : (n - 1).toNat = k at hk hd ⊢
      have hjk : k ≠ j := by omega
      obtain ⟨nd1, ht⟩ := display_delete_trim_total
        (s.displaypoints.set k (some { d with exp := none })) (k + 1) s.ndisplays
        hk.1 (by omega)
        (fun i hi => by
          by_cases hik : k = i
          · subst hik
            exact ⟨_, List.getElem?_set_self (by omega)⟩
          · rw [List.getElem?_set_ne hik]
            exact hinv.written i (by omega))
        (fun _ => ⟨j, by omega, by rw [live_at_set_ne _ _ _ _ hjk]; exact hlive⟩)
      rw [ht]
      exact ⟨_, _, _, rfl⟩

/-- `display_add` returns in a reachable store whose capacity can still grow. -/
theorem display_add_returns_of_Reachable (env : Env) (s : Store) (exp : expr) (count : Int)
    (format : Char) (hr : Reachable s)
    (hroom : s.maxdisplays + DISPTAB_DELTA < 4294967296) :
    ∃ r s1 out, display_add env s exp count format = .ok (r, s1, out) := by
  have hinv := Inv_of_Reachable s hr
  obtain ⟨i, hs⟩ := display_add_scan_total s.displaypoints s.ndisplays 0
    (fun j _ hj => hinv.written j (by omega))
  have hi := display_add_scan_le s i hs
  have hle := hinv.mark_le
  apply display_add_returns env s exp count format i hs
  rw [length_display_add_block s i hinv.length_eq]
  unfold display_add_capacity
  unfold DISPTAB_DELTA at hroom ⊢
  by_cases hm : i = s.maxdisplays
  · rw [if_pos hm]; omega
  · rw [if_neg hm]; omega

/-- The path of `display_delete` on a display number whose slot holds a live record. -/
theorem display_delete_valid_eq (s : Store) (n : Int) (d : display) (e : expr)
    (h1 : 1 ≤ n) (hu : to_unsigned n ≤ s.ndisplays)
    (hcell : s.displaypoints[(n - 1).toNat]? = some (some d)) (he : d.exp = some e) :
    display_delete s n =
      match display_delete_trim
          (s.displaypoints.set (n - 1).toNat (some { d with exp := none }))
          ((n - 1).toNat + 1) s.ndisplays with
      | .error f => .error f
      | .ok nd1 =>
        .ok (TRUE, display_delete_shrink
          (s.displaypoints.set (n - 1).toNat (some { d with exp := none }))
          s.maxdisplays nd1, [Event.expr_free e]) := by
  unfold display_delete
  have hc : ¬ (to_unsigned n > s.ndisplays ∨ n = 0 ∨ n < -1) := by omega
  have hl : load s.displaypoints (n - 1) = .ok d := (load_ok_iff _ _ _).2 ⟨by omega, hcell⟩
  rw [if_neg hc, hl]
  dsimp only
  rw [if_neg (by rw [he]; exact Option.some_ne_none e), if_neg (by omega : ¬ n = -1), he]

/-- C7: in a reachable store, `display_delete(n)` of a valid display number `n ≥ 1`
changes the capacity only if, once the slot is a tombstone and the tail is trimmed,
`maxdisplays - ndisplays ≥ 2 * DISPTAB_DELTA = 16`; in that case the new capacity is
`(ndisplays + 7) & ~7`, which is the least multiple of 8 that is at least `ndisplays`;
otherwise the capacity is unchanged. -/
theorem C7_shrink_hysteresis (s : Store) (n : Int) (r : Int) (s1 : Store)
    (out : List Event) (hr : Reachable s) (h1 : 1 ≤ n) (hn : n ≤ (s.ndisplays : Int))
    (hlive : live_at s.displaypoints (n - 1).toNat = true)
    (h : display_delete s n = .ok (r, s1, out)) :
    s1.ndisplays ≤ s.maxdisplays ∧
    (s1.maxdisplays ≠ s.maxdisplays →
      2 * DISPTAB_DELTA ≤ s.maxdisplays - s1.ndisplays) ∧
    (2 * DISPTAB_DELTA ≤ s.maxdisplays - s1.ndisplays →
      s1.maxdisplays = ((s1.ndisplays + DISPTAB_DELTA - 1) &&& DELTA_MASK) ∧
      s1.maxdisplays < s.maxdisplays ∧
      DISPTAB_DELTA ∣ s1.maxdisplays ∧ s1.ndisplays ≤ s1.maxdisplays ∧
      ∀ m, DISPTAB_DELTA ∣ m → s1.ndisplays ≤ m → s1.maxdisplays ≤ m) ∧
    (s.maxdisplays - s1.ndisplays < 2 * DISPTAB_DELTA →
      s1.maxdisplays = s.maxdisplays) := by
  have hinv := Inv_of_Reachable s hr
  have hmax := hinv.max_lt
  have hle := hinv.mark_le
  have hmod := hinv.max_mod
  obtain ⟨d, e, hcell, he⟩ := (live_at_iff _ _).1 hlive
  have hu : to_unsigned n ≤ s.ndisplays := by unfold to_unsigned; omega
  rw [display_delete_valid_eq s n d e h1 hu hcell he] at h
  rcases ht : display_delete_trim
      (s.displaypoints.set (n - 1).toNat (some { d with exp := none }))
      ((n - 1).toNat + 1) s.ndisplays with f | nd1
  · rw [ht] at h; cases h
  · rw [ht] at h
    simp only [Except.ok.injEq, Prod.mk.injEq] at h
    obtain ⟨-, rfl, -⟩ := h
    obtain ⟨-, -, f3, -, -, -, -⟩ := display_delete_facts s n d nd1 hinv h1 hu hcell ht
    obtain ⟨k0, k1, k2⟩ := display_delete_shrink_spec
      (s.displaypoints.set (n - 1).toNat (some { d with exp := none }))
      s.maxdisplays nd1 (by omega) hmax
    have hmask : (nd1 + 7) &&& DELTA_MASK = (nd1 + 7) / 8 * 8 := by
      rw [DELTA_MASK_eq]; exact and_mask_eq _ (by omega)
    rw [k0]
    unfold DISPTAB_DELTA
    by_cases hs : s.maxdisplays - nd1 < 16
    · rw [k1 hs]
      exact ⟨by omega, fun hne => absurd rfl hne, fun hge => by omega, fun _ => rfl⟩
    · rw [k2 (by omega)]
      dsimp only
      refine ⟨by omega, fun _ => by omega, fun _ => ⟨?_, by omega, ?_, by omega, ?_⟩,
        fun hlt => by omega⟩
      · rw [show nd1 + 8 - 1 = nd1 + 7 from rfl, hmask]
      · exact Dvd.intro_left _ rfl
      · intro m hm hnm
        obtain ⟨c, rfl⟩ := hm
        omega

theorem Reachable_run (ops : List Op) :
    ∀ (s s1 : Store), Reachable s → run ops s = some s1 → Reachable s1 := by
  induction ops with
  | nil =>
    intro s s1 hr h
    simp only [run, Option.some.injEq] at h
    rw [← h]; exact hr
  | cons op ops ih =>
    intro s s1 hr h
    cases op with
    | add env exp count format =>
      simp only [run] at h
      rcases hstep : display_add env s exp count format with f | ⟨r, s2, out⟩
      · rw [hstep] at h; cases h
      · rw [hstep] at h
        exact ih s2 s1 (Reachable.add env s exp count format r s2 out hr hstep) h
    | delete n =>
      simp only [run] at h
      rcases hstep : display_delete s n with f | ⟨r, s2, out⟩
      · rw [hstep] at h; cases h
      · rw [hstep] at h
        exact ih s2 s1 (Reachable.delete s n r s2 out hr hstep) h

theorem Reachable_store_sparse : Reachable store_sparse :=
  Reachable_run sparse_ops Store.empty store_sparse Reachable.empty rfl

/-- C7 at the store with displays 1 and 17 live and capacity 24: `display_delete(17)`
trims `ndisplays` to 1, the slack is 23, and the capacity becomes 8. -/
theorem C7_shrink_hysteresis_witness :
    ∃ s1, display_delete store_sparse 17 = .ok (TRUE, s1, [Event.expr_free ⟨117⟩]) ∧
      s1.ndisplays = 1 ∧ s1.maxdisplays = 8 ∧
      (2 * DISPTAB_DELTA ≤ store_sparse.maxdisplays - s1.ndisplays →
        s1.maxdisplays = ((s1.ndisplays + DISPTAB_DELTA - 1) &&& DELTA_MASK) ∧
        s1.maxdisplays < store_sparse.maxdisplays ∧
        DISPTAB_DELTA ∣ s1.maxdisplays ∧ s1.ndisplays ≤ s1.maxdisplays ∧
        ∀ m, DISPTAB_DELTA ∣ m → s1.ndisplays ≤ m → s1.maxdisplays ≤ m) :=
  ⟨_, rfl, rfl, rfl, (C7_shrink_hysteresis store_sparse 17 TRUE _ [Event.expr_free ⟨117⟩]
    Reachable_store_sparse (by decide) (by decide) rfl rfl).2.2.1⟩

/-! ## C10 -/

theorem header_inj (i j : Nat) (h : header i = header j) : i = j := by
  unfold header at h
  simp only [Event.dbg_printf.injEq, List.cons.injEq, printf_arg.int.injEq, and_true,
    true_and] at h
  omega

/-- The part of C3 that holds: in a reachable store, a `display_add` that returns
`FALSE` releases the clone and leaves every slot either as it was or a tombstone where
there was no live record; `ndisplays` is unchanged exactly when a tombstone below the mark
was reused. -/
theorem display_add_failure_frame (env : Env) (s : Store) (exp : expr) (count : Int)
    (format : Char) (s1 : Store) (out : List Event) (hr : Reachable s)
    (h : display_add env s exp count format = .ok (FALSE, s1, out)) :
    out = [Event.expr_free (env.expr_clone exp).1] ∧
    (∀ j, live_at s1.displaypoints j = live_at s.displaypoints j) ∧
    (s1.ndisplays = s.ndisplays ↔
      ∃ j, j < s.ndisplays ∧ tombstone_at s.displaypoints j = true) := by
  have hinv := Inv_of_Reachable s hr
  have hle := hinv.mark_le
  have hmax := hinv.max_lt
  have hmod := hinv.max_mod
  obtain ⟨i, hs, hlt, rfl, hret, hout⟩ := display_add_ok env s exp count format FALSE s1 out h
  obtain ⟨-, s2, s3, s4⟩ := display_add_scan_spec s.displaypoints s.ndisplays 0 i hs
  have hfail : display_add_fails env exp = true := by
    rcases hf : display_add_fails env exp
    · rw [hf] at hret; exact absurd hret (by decide)
    · rfl
  rw [hfail] at hout
  have hrec := display_add_record_of_failure env exp count format hfail
  have hnotlive : live_at s.displaypoints i = false := by
    by_cases hi : i < s.ndisplays
    · exact not_live_of_tombstone _ _ (s4 (by omega))
    · exact hinv.dead_above i (by omega)
  refine ⟨hout, ?_, ?_⟩
  · intro j
    dsimp only
    by_cases hij : i = j
    · subst hij
      rw [hnotlive]
      unfold live_at
      rw [List.getElem?_set_self hlt, hrec]
      rfl
    · rw [live_at_set_ne _ _ _ _ hij]
      rcases hl : live_at s.displaypoints j
      · by_contra hne
        have := live_at_display_add_block s i j (Bool.of_not_eq_false hne)
        rw [hl] at this
        cases this
      · have hj := live_below_mark s hr j hl
        unfold live_at at hl ⊢
        rw [getElem?_display_add_block s i j hinv.length_eq (by omega) hlt]
        exact hl
  · dsimp only
    unfold display_add_mark
    constructor
    · intro hnd
      by_cases hi : i = s.ndisplays
      · rw [if_pos hi] at hnd
        omega
      · exact ⟨i, by omega, s4 (by omega)⟩
    · rintro ⟨j, hj, hjt⟩
      have hi : i ≠ s.ndisplays := by
        intro hi
        have hlive := s3 j (Nat.zero_le j) (by omega)
        rw [not_live_of_tombstone _ _ hjt] at hlive
        cases hlive
      rw [if_neg hi]

/-- The second half of C5 holds: in a reachable store, `display_delete` of a live record
above which some other record is live returns and leaves `ndisplays` unchanged. -/
theorem display_delete_middle_keeps_mark (s : Store) (n : Int) (j : Nat) (hr : Reachable s)
    (hint : -2147483648 ≤ n ∧ n < 2147483648) (h1 : 1 ≤ n)
    (hlive : live_at s.displaypoints (n - 1).toNat = true)
    (hj : n - 1 < (j : Int)) (hjlive : live_at s.displaypoints j = true) :
    ∃ s1 out, display_delete s n = .ok (TRUE, s1, out) ∧ s1.ndisplays = s.ndisplays := by
  have hinv := Inv_of_Reachable s hr
  have hle := hinv.mark_le
  have hmax := hinv.max_lt
  have hjn := live_below_mark s hr j hjlive
  obtain ⟨r, s1, out, h⟩ := display_delete_returns s n j hr hint (by omega) hjlive
  obtain ⟨d, e, hcell, he⟩ := (live_at_iff _ _).1 hlive
  have hu : to_unsigned n ≤ s.ndisplays := by unfold to_unsigned; omega
  have h2 := h
  rw [display_delete_valid_eq s n d e h1 hu hcell he] at h2
  rcases ht : display_delete_trim
      (s.displaypoints.set (n - 1).toNat (some { d with exp := none }))
      ((n - 1).toNat + 1) s.ndisplays with f | nd1
  · rw [ht] at h2; cases h2
  · rw [ht] at h2
    simp only [Except.ok.injEq, Prod.mk.injEq] at h2
    obtain ⟨hr1, hs1, -⟩ := h2
    obtain ⟨-, -, -, f4, -, -, -⟩ := display_delete_facts s n d nd1 hinv h1 hu hcell ht
    refine ⟨s1, out, by rw [h, ← hr1], ?_⟩
    rw [← hs1, (display_delete_shrink_spec _ s.maxdisplays nd1 (by
      have := f4 (by omega); omega) hmax).1]
    exact f4 (by omega)

/-- The first half of C5 holds where the mark is tight and another record is live: in a
reachable store, `display_delete(ndisplays)` of a live record, some other record being
live, returns and strictly decreases `ndisplays`. -/
theorem display_delete_tail_trims (s : Store) (j : Nat) (hr : Reachable s)
    (hint : s.ndisplays < 2147483648) (hpos : 1 ≤ s.ndisplays)
    (hlive : live_at s.displaypoints (s.ndisplays - 1) = true)
    (hj : j ≠ s.ndisplays - 1) (hjlive : live_at s.displaypoints j = true) :
    ∃ s1 out, display_delete s (s.ndisplays : Int) = .ok (TRUE, s1, out) ∧
      s1.ndisplays < s.ndisplays := by
  have hinv := Inv_of_Reachable s hr
  have hle := hinv.mark_le
  have hmax := hinv.max_lt
  have hjn := live_below_mark s hr j hjlive
  have hk : ((s.ndisplays : Int) - 1).toNat = s.ndisplays - 1 := by omega
  obtain ⟨r, s1, out, h⟩ := display_delete_returns s (s.ndisplays : Int) j hr
    ⟨by omega, by omega⟩ (by omega) hjlive
  rw [← hk] at hlive
  obtain ⟨d, e, hcell, he⟩ := (live_at_iff _ _).1 hlive
  have hu : to_unsigned (s.ndisplays : Int) ≤ s.ndisplays := by unfold to_unsigned; omega
  have h1 : (1 : Int) ≤ (s.ndisplays : Int) := by omega
  have h2 := h
  rw [display_delete_valid_eq s _ d e h1 hu hcell he] at h2
  rcases ht : display_delete_trim
      (s.displaypoints.set ((s.ndisplays : Int) - 1).toNat (some { d with exp := none }))
      (((s.ndisplays : Int) - 1).toNat + 1) s.ndisplays with f | nd1
  · rw [ht] at h2; cases h2
  · rw [ht] at h2
    simp only [Except.ok.injEq, Prod.mk.injEq] at h2
    obtain ⟨hr1, hs1, -⟩ := h2
    obtain ⟨-, -, f3, -, f5, -, -⟩ := display_delete_facts s _ d nd1 hinv h1 hu hcell ht
    refine ⟨s1, out, by rw [h, ← hr1], ?_⟩
    rw [← hs1, (display_delete_shrink_spec _ s.maxdisplays nd1 (by omega) hmax).1]
    have := f5 (by omega)
    omega

/-! ## What does hold of C6 -/

/-- A `display_add` that returns `TRUE` leaves the mark tight. -/
theorem Tight_display_add (env : Env) (s : Store) (exp : expr) (count : Int)
    (format : Char) (s1 : Store) (out : List Event) (hr : Reachable s) (ht : Tight s)
    (h : display_add env s exp count format = .ok (TRUE, s1, out)) : Tight s1 := by
  have hinv := Inv_of_Reachable s hr
  have hle := hinv.mark_le
  have hmax := hinv.max_lt
  have hmod := hinv.max_mod
  obtain ⟨i, hs, hlt, rfl, hret, -⟩ := display_add_ok env s exp count format TRUE s1 out h
  have hi := display_add_scan_le s i hs
  have hfail : display_add_fails env exp = false := by
    rcases hf : display_add_fails env exp
    · rfl
    · rw [hf] at hret; exact absurd hret (by decide)
  have hrec := display_add_record_of_success env exp count format hfail
  have hnew : live_at ((display_add_block s i).set i
      (some (display_add_record env exp count format))) i = true := by
    unfold live_at
    rw [List.getElem?_set_self hlt, hrec]
    rfl
  intro hpos
  dsimp only at hpos ⊢
  unfold display_add_mark at hpos ⊢
  by_cases hn : i = s.ndisplays
  · rw [if_pos hn]
    have e1 : (s.ndisplays + 1) % 4294967296 - 1 = i := by omega
    rw [e1]
    exact hnew
  · rw [if_neg hn]
    by_cases hi1 : i = s.ndisplays - 1
    · rw [← hi1]; exact hnew
    · rw [live_at_set_ne _ _ _ _ hi1]
      have hl := ht (by omega)
      unfold live_at at hl ⊢
      rw [getElem?_display_add_block s i _ hinv.length_eq (by omega) hlt]
      exact hl

/-- A `display_delete` that returns leaves the mark tight. -/
theorem Tight_display_delete (s : Store) (n : Int) (r : Int) (s1 : Store)
    (out : List Event) (hr : Reachable s) (ht : Tight s)
    (h : display_delete s n = .ok (r, s1, out)) : Tight s1 := by
  have hinv := Inv_of_Reachable s hr
  have hle := hinv.mark_le
  have hmax := hinv.max_lt
  rcases display_delete_ok s n r s1 out h with hv | ⟨d, e, nd1, h1, hu, hcell, -, htr, -, -, rfl⟩
  · rw [(display_delete_invalid_ok s n r s1 out h hv).2.1]; exact ht
  · obtain ⟨f1, f2, f3, f4, f5, -, -⟩ := display_delete_facts s n d nd1 hinv h1 hu hcell htr
    have hlen : (s.displaypoints.set (n - 1).toNat (some { d with exp := none })).length =
        s.maxdisplays := by rw [List.length_set]; exact hinv.length_eq
    intro hpos
    rw [(display_delete_shrink_spec _ s.maxdisplays nd1 (by omega) hmax).1] at hpos ⊢
    unfold live_at
    rw [getElem?_display_delete_shrink _ _ _ (nd1 - 1) (by omega) hmax hlen (by omega)]
    by_cases hk : (n - 1).toNat + 1 = s.ndisplays
    · obtain ⟨g1, g2, g3⟩ := f5 hk
      rw [List.getElem?_set_ne (by omega)]
      exact g3
    · have hnd := f4 (by omega)
      rw [hnd, List.getElem?_set_ne (by omega)]
      exact ht (by omega)

/-! ## C11 -/

/-- C14: when `display_add(exp, count, format)` returns `TRUE`, the slot chosen by its
scan holds a record whose expression is the clone of `exp`, whose repeat count is
`count`, whose format is `format`, whose `enabled` flag is `TRUE`, and whose bound frame
is the descriptor that `stack_get_frame` has left in the record's buffer when the clone
reports a local binding, and `NULL` otherwise. -/
theorem C14_display_add_record (env : Env) (s : Store) (exp : expr) (count : Int)
    (format : Char) (s1 : Store) (out : List Event)
    (h : display_add env s exp count format = .ok (TRUE, s1, out)) :
    ∃ i d, display_add_scan s.displaypoints s.ndisplays 0 = .ok i ∧
      s1.displaypoints[i]? = some (some d) ∧
      d.exp = some (env.expr_clone exp).1 ∧ d.count = count ∧ d.format = format ∧
      d.enabled = TRUE ∧
      ((env.expr_clone exp).2 = true →
        env.stack_get_frame.1 = true ∧ d.func = some env.stack_get_frame.2) ∧
      ((env.expr_clone exp).2 = false → d.func = none) := by
  obtain ⟨i, hs, hlt, rfl, hret, -⟩ := display_add_ok env s exp count format TRUE s1 out h
  have hfail : display_add_fails env exp = false := by
    rcases hf : display_add_fails env exp
    · rfl
    · rw [hf] at hret; exact absurd hret (by decide)
  refine ⟨i, _, hs, List.getElem?_set_self hlt, ?_⟩
  rw [display_add_record_of_success env exp count format hfail]
  refine ⟨rfl, rfl, rfl, rfl, ?_, ?_⟩
  · intro hc
    unfold display_add_fails at hfail
    rw [hc] at hfail
    refine ⟨?_, by rw [if_pos hc]⟩
    rcases hf : env.stack_get_frame.1
    · rw [hf] at hfail; cases hfail
    · rfl
  · intro hc
    rw [hc]
    rfl

/-- C14 at the empty store, the debuggee stopped in `F`: the record of a display with a
local binding carries the descriptor of `F`. -/
theorem C14_display_add_record_witness :
    ∃ i d, display_add_scan Store.empty.displaypoints Store.empty.ndisplays 0 = .ok i ∧
      store_bound.displaypoints[i]? = some (some d) ∧
      d.exp = some (env_local_F.expr_clone ⟨1⟩).1 ∧ d.count = 1 ∧ d.format = 'x' ∧
      d.enabled = TRUE ∧
      ((env_local_F.expr_clone ⟨1⟩).2 = true →
        env_local_F.stack_get_frame.1 = true ∧
          d.func = some env_local_F.stack_get_frame.2) ∧
      ((env_local_F.expr_clone ⟨1⟩).2 = false → d.func = none) :=
  C14_display_add_record env_local_F Store.empty ⟨1⟩ 1 'x' store_bound [] rfl

/-! ## C15 -/

/-- C15: whenever `display_add` returns, it returns `FALSE` if the clone reports a local
binding and `stack_get_frame` fails, and `TRUE` in every other case; and it does return
on every reachable store whose capacity can still grow by 8 within an `unsigned int`. -/
theorem C15_display_add_result (env : Env) (s : Store) (exp : expr) (count : Int)
    (format : Char) :
    (∀ r s1 out, display_add env s exp count format = .ok (r, s1, out) →
      (r = FALSE ↔ ((env.expr_clone exp).2 = true ∧ env.stack_get_frame.1 = false)) ∧
      (r = TRUE ↔ ¬ ((env.expr_clone exp).2 = true ∧ env.stack_get_frame.1 = false))) ∧
    (Reachable s → s.maxdisplays + DISPTAB_DELTA < 4294967296 →
      ∃ r s1 out, display_add env s exp count format = .ok (r, s1, out)) := by
  refine ⟨?_, fun hr hroom => display_add_returns_of_Reachable env s exp count format hr hroom⟩
  intro r s1 out h
  obtain ⟨i, -, -, -, hret, -⟩ := display_add_ok env s exp count format r s1 out h
  have hiff : display_add_fails env exp = true ↔
      ((env.expr_clone exp).2 = true ∧ env.stack_get_frame.1 = false) := by
    unfold display_add_fails
    rcases (env.expr_clone exp).2 <;> rcases env.stack_get_frame.1 <;> simp
  rw [← hiff]
  rcases hf : display_add_fails env exp
  · rw [hf] at hret
    simp only [Bool.false_eq_true, if_false] at hret
    rw [hret]
    exact ⟨by decide, by decide⟩
  · rw [hf] at hret
    simp only [if_true] at hret
    rw [hret]
    exact ⟨by decide, by decide⟩

/-- C15 on the empty store: with a local binding and no frame the result is `FALSE`, and
the call returns. -/
theorem C15_display_add_result_witness :
    (FALSE = FALSE ↔
      ((env_no_frame.expr_clone ⟨1⟩).2 = true ∧ env_no_frame.stack_get_frame.1 = false)) ∧
    ∃ r s1 out, display_add env_no_frame Store.empty ⟨1⟩ 1 'x' = .ok (r, s1, out) :=
  have h := C15_display_add_result env_no_frame Store.empty ⟨1⟩ 1 'x'
  ⟨(h.1 FALSE store_failed_add [Event.expr_free ⟨101⟩] rfl).1,
    h.2 Reachable.empty (by decide)⟩

/-! ## C16 -/

/-- C19: in every reachable store `ndisplays ≤ maxdisplays`.  Consequently the index that
`display_add` writes is strictly below the capacity it leaves, which is the length of
the block: this holds for every `display_add` that returns, and `display_add` returns
with its index below the capacity whenever the capacity can still grow by 8 within an
`unsigned int`. -/
theorem C19_mark_within_capacity (s : Store) (hr : Reachable s) :
    s.ndisplays ≤ s.maxdisplays ∧
    (∀ (env : Env) (exp : expr) (count : Int) (format : Char) (r : Int) (s1 : Store)
        (out : List Event), display_add env s exp count format = .ok (r, s1, out) →
        ∃ i, display_add_scan s.displaypoints s.ndisplays 0 = .ok i ∧
          i < s1.maxdisplays ∧ s1.displaypoints.length = s1.maxdisplays) ∧
    (s.maxdisplays + DISPTAB_DELTA < 4294967296 →
      ∃ i, display_add_scan s.displaypoints s.ndisplays 0 = .ok i ∧
        i ≤ s.ndisplays ∧ i < display_add_capacity s i ∧
        (display_add_block s i).length = display_add_capacity s i) := by
  have hinv := Inv_of_Reachable s hr
  have hle := hinv.mark_le
  refine ⟨hle, ?_, ?_⟩
  · intro env exp count format r s1 out h
    obtain ⟨i, hs, hlt, rfl, -, -⟩ := display_add_ok env s exp count format r s1 out h
    have hlen := length_display_add_block s i hinv.length_eq
    refine ⟨i, hs, ?_, ?_⟩
    · dsimp only; rw [← hlen]; exact hlt
    · dsimp only; rw [List.length_set]; exact hlen
  · intro hroom
    obtain ⟨i, hs⟩ := display_add_scan_total s.displaypoints s.ndisplays 0
      (fun j _ hj => hinv.written j (by omega))
    have hi := display_add_scan_le s i hs
    refine ⟨i, hs, hi, ?_, length_display_add_block s i hinv.length_eq⟩
    unfold display_add_capacity
    unfold DISPTAB_DELTA at hroom ⊢
    by_cases hm : i = s.maxdisplays
    · rw [if_pos hm]; omega
    · rw [if_neg hm]; omega

/-- C19 at the store that holds three displays. -/
theorem C19_mark_within_capacity_witness :
    store_three.ndisplays ≤ store_three.maxdisplays ∧
    ∃ i, display_add_scan store_three.displaypoints store_three.ndisplays 0 = .ok i ∧
      i ≤ store_three.ndisplays ∧ i < display_add_capacity store_three i ∧
      (display_add_block store_three i).length = display_add_capacity store_three i :=
  have h := C19_mark_within_capacity store_three Reachable_store_three
  ⟨h.1, h.2.2 (by decide)⟩

/-! ## C18 -/

/-- The trim loop started at the mark over tombstones only ends in a read of
`displaypoints[-1]`. -/
theorem display_delete_trim_runs_off (dp : List (Option display)) :
    ∀ (k : Nat), k < 4294967296 → (∀ j, j < k → tombstone_at dp j = true) →
      display_delete_trim dp k k = .error (.out_of_bounds (-1)) := by
  intro k
  induction k with
  | zero =>
    intro _ _
    simp only [display_delete_trim]
    rw [if_pos (by decide)]
  | succ k ih =>
    intro hk ht
    simp only [display_delete_trim]
    have hc : to_unsigned (k : Int) = to_unsigned (((k + 1 : Nat) : Int) - 1) := by
      unfold to_unsigned; omega
    rw [if_pos hc]
    obtain ⟨d, hd, he⟩ := (tombstone_at_iff dp k).1 (ht k (by omega))
    rw [(load_natCast dp k d).2 hd]
    dsimp only
    rw [if_pos he]
    have hu : to_unsigned (((k + 1 : Nat) : Int) - 1) = k := by unfold to_unsigned; omega
    rw [hu]
    exact ih (by omega) (fun j hj => ht j (by omega))

/-- C18 (the code at the failing inputs): in a reachable store whose slot
`ndisplays - 1` holds the only live record, `display_delete(ndisplays)` brings
`ndisplays` down to 0, evaluates `displaynum == ndisplays - 1` once more with
`displaynum = -1` and `ndisplays - 1 = 4294967295`, finds it true and reads
`displaypoints[-1]`: an index outside `[0, ndisplays)`. -/
theorem C18_trim_reads_before_block (s : Store) (hr : Reachable s)
    (hpos : 1 ≤ s.ndisplays) (hint : s.ndisplays < 2147483648)
    (hlive : live_at s.displaypoints (s.ndisplays - 1) = true)
    (honly : ∀ j, j < s.ndisplays - 1 → live_at s.displaypoints j = false) :
    display_delete s (s.ndisplays : Int) = .error (.out_of_bounds (-1)) := by
  have hinv := Inv_of_Reachable s hr
  have hk : ((s.ndisplays : Int) - 1).toNat = s.ndisplays - 1 := by omega
  obtain ⟨d, e, hcell, he⟩ := (live_at_iff _ _).1 hlive
  have hlen := lt_length_of_getElem? _ _ _ hcell
  have hu : to_unsigned (s.ndisplays : Int) ≤ s.ndisplays := by unfold to_unsigned; omega
  rw [display_delete_valid_eq s _ d e (by omega) hu (by rw [hk]; exact hcell) he, hk]
  have hsucc : s.ndisplays - 1 + 1 = s.ndisplays := by omega
  rw [hsucc, display_delete_trim_runs_off _ s.ndisplays (by omega)]
  intro j hj
  apply (tombstone_at_iff _ _).2
  by_cases hjk : s.ndisplays - 1 = j
  · subst hjk
    exact ⟨_, List.getElem?_set_self hlen, rfl⟩
  · rw [List.getElem?_set_ne hjk]
    obtain ⟨c, hc⟩ := hinv.written j hj
    refine ⟨c, hc, ?_⟩
    have hnl := honly j (by omega)
    rcases hce : c.exp with _ | x
    · rfl
    · rw [(live_at_iff _ _).2 ⟨c, x, hc, hce⟩] at hnl
      cases hnl

/-- C18 at the store that holds one live display: `display_delete(1)` reads
`displaypoints[-1]`. -/
theorem C18_trim_reads_before_block_witness :
    Reachable store_one ∧ display_delete store_one 1 = .error (.out_of_bounds (-1)) :=
  ⟨Reachable_store_one, C18_trim_reads_before_block store_one Reachable_store_one
    (by decide) (by decide) rfl (by decide)⟩

/-! ## C17 and C20 -/

theorem memcmp_self (a : List Nat) : ∀ n, memcmp a a n = 0 := by
  induction a with
  | nil => intro n; cases n <;> rfl
  | cons x xs ih =>
    intro n
    cases n with
    | zero => rfl
    | succ n =>
      simp only [memcmp, lt_irrefl, if_false]
      exact ih n

theorem memcmp_eq_zero_iff :
    ∀ (n : Nat) (a b : List Nat), n ≤ a.length → n ≤ b.length →
      (memcmp a b n = 0 ↔ a.take n = b.take n) := by
  intro n
  induction n with
  | zero =>
    intro a b _ _
    cases a <;> cases b <;> simp [memcmp]
  | succ n ih =>
    intro a b ha hb
    cases a with
    | nil => simp at ha
    | cons x xs =>
      cases b with
      | nil => simp at hb
      | cons y ys =>
        simp only [List.length_cons] at ha hb
        simp only [memcmp, List.take_succ_cons, List.cons.injEq]
        by_cases h1 : x < y
        · rw [if_pos h1]
          constructor
          · intro h; cases h
          · rintro ⟨h, -⟩; omega
        · rw [if_neg h1]
          by_cases h2 : y < x
          · rw [if_pos h2]
            constructor
            · intro h; cases h
            · rintro ⟨h, -⟩; omega
          · rw [if_neg h2, ih xs ys (by omega) (by omega)]
            constructor
            · intro h; exact ⟨by omega, h⟩
            · rintro ⟨-, h⟩; exact h

theorem cmp_symbol_eq_true_iff (a b : SYMBOL_INFO) :
    cmp_symbol a b = true ↔
      memcmp a.fixed b.fixed OFFSET_OF_Name = 0 ∧ memcmp a.Name b.Name a.NameLen = 0 := by
  unfold cmp_symbol
  simp

/-- The two comparisons of `cmp_symbol` on well-formed descriptors. -/
theorem cmp_symbol_iff_spec (a b : SYMBOL_INFO) (ha : well_formed a) (hb : well_formed b) :
    cmp_symbol a b = true ↔ cmp_symbol_spec a b := by
  unfold cmp_symbol_spec
  rw [cmp_symbol_eq_true_iff, memcmp_eq_zero_iff _ _ _ (le_of_eq ha.1.symm) (le_of_eq hb.1.symm),
    List.take_of_length_le (le_of_eq ha.1), List.take_of_length_le (le_of_eq hb.1)]
  constructor
  · rintro ⟨h1, h2⟩
    have hlen : a.NameLen = b.NameLen := by unfold SYMBOL_INFO.NameLen; rw [h1]
    exact ⟨h1, (memcmp_eq_zero_iff _ _ _ ha.2 (by rw [hlen]; exact hb.2)).1 h2⟩
  · rintro ⟨h1, h2⟩
    have hlen : a.NameLen = b.NameLen := by unfold SYMBOL_INFO.NameLen; rw [h1]
    exact ⟨h1, (memcmp_eq_zero_iff _ _ _ ha.2 (by rw [hlen]; exact hb.2)).2 h2⟩

/-- C17: on well-formed descriptors, `cmp_symbol(a, b)` is true exactly when the bytes of
the fixed fields of `a` and `b`, which are all the bytes before `Name`, are equal and the
first `a.NameLen` bytes of `a.Name` and `b.Name` are equal. -/
theorem C17_cmp_symbol_structural (a b : SYMBOL_INFO) (ha : well_formed a)
    (hb : well_formed b) :
    cmp_symbol a b = true ↔
      (a.fixed = b.fixed ∧ a.Name.take a.NameLen = b.Name.take a.NameLen) :=
  cmp_symbol_iff_spec a b ha hb

/-- C17 at the descriptors of `F` and `G`: they differ in the first byte of the name, and
`cmp_symbol` is false. -/
theorem C17_cmp_symbol_structural_witness :
    cmp_symbol (frame_of 70) (frame_of 71) = true ↔
      ((frame_of 70).fixed = (frame_of 71).fixed ∧
        (frame_of 70).Name.take (frame_of 70).NameLen =
          (frame_of 71).Name.take (frame_of 70).NameLen) :=
  C17_cmp_symbol_structural (frame_of 70) (frame_of 71) ⟨rfl, by decide⟩ ⟨rfl, by decide⟩

/-- C20: `cmp_symbol` is reflexive, and on well-formed descriptors it is symmetric and
transitive, although the length of the name comparison is taken from the first argument
only: descriptors that pass the comparison of the fixed fields have the same
`NameLen`, which is one of these fields. -/
theorem C20_cmp_symbol_equivalence :
    (∀ a, cmp_symbol a a = true) ∧
    (∀ a b, well_formed a → well_formed b → cmp_symbol a b = true →
      cmp_symbol b a = true) ∧
    (∀ a b c, well_formed a → well_formed b → well_formed c → cmp_symbol a b = true →
      cmp_symbol b c = true → cmp_symbol a c = true) ∧
    (∀ a b, well_formed a → well_formed b → cmp_symbol a b = true →
      a.NameLen = b.NameLen) := by
  have hlen : ∀ a b : SYMBOL_INFO, a.fixed = b.fixed → a.NameLen = b.NameLen := by
    intro a b h
    unfold SYMBOL_INFO.NameLen
    rw [h]
  refine ⟨?_, ?_, ?_, ?_⟩
  · intro a
    rw [cmp_symbol_eq_true_iff]
    exact ⟨memcmp_self _ _, memcmp_self _ _⟩
  · intro a b ha hb h
    obtain ⟨h1, h2⟩ := (cmp_symbol_iff_spec a b ha hb).1 h
    apply (cmp_symbol_iff_spec b a hb ha).2
    refine ⟨h1.symm, ?_⟩
    rw [← hlen a b h1]
    exact h2.symm
  · intro a b c ha hb hc hab hbc
    obtain ⟨h1, h2⟩ := (cmp_symbol_iff_spec a b ha hb).1 hab
    obtain ⟨h3, h4⟩ := (cmp_symbol_iff_spec b c hb hc).1 hbc
    apply (cmp_symbol_iff_spec a c ha hc).2
    refine ⟨h1.trans h3, ?_⟩
    rw [← hlen a b h1] at h4
    exact h2.trans h4
  · intro a b ha hb h
    exact hlen a b ((cmp_symbol_iff_spec a b ha hb).1 h).1

end Winedbg
